import Mathlib

/-!
YUView: `fileSourceFFmpegFile`

A shallow embedding of `source/fileSourceFFMpegFile.cpp`: the packet iterator
(`goToNextVideoPacket`), the seek index (`scanBitstream`,
`getClosestSeekableDTSBefore`), the NAL unit extractor (`getNextNALUnit`), the
extradata parser (`getParameterSets`) and `seekToPTS`.

Conventions of the embedding:

* a C++ `int` is an `Int` in `[-2^31, 2^31)`, an `unsigned int` an `Int` in
  `[0, 2^32)`; conversions between integer types are written out
  (`toInt32`, `toUInt32`, `toUInt64`);
* an out-of-range element access (`QByteArray::at`, `QList::operator[]`) has no
  defined result: the operation returns `none`;
* the FFmpeg container is the list of the results its next reads will give;
  once the list is used up every read reports end of file;
* `currentPacketData` is kept as bytes; that it only refers to the buffer of a
  packet, which a later read releases, is tracked by `TrackedSession`, where a
  read of a released payload returns `none` as well.
-/

namespace YUView

/-! ## Machine integers -/

/-- Conversion of an integer value to a 32-bit signed `int` (two's complement wrap). -/
def toInt32 (x : Int) : Int := (x + 2147483648) % 4294967296 - 2147483648

/-- Conversion of an integer value to `unsigned int` (32 bit). -/
def toUInt32 (x : Int) : Int := x % 4294967296

/-- Conversion of an integer value to a 64-bit signed `int64_t` (two's
complement wrap). -/
def toInt64 (x : Int) : Int :=
  (x + 9223372036854775808) % 18446744073709551616 - 9223372036854775808

/-- Conversion of an integer value to `uint64_t`. -/
def toUInt64 (x : Int) : Int := x % 18446744073709551616

/-! ## Qt byte arrays -/

/-- One byte of a `QByteArray`, as its unsigned value. -/
abbrev Byte := Fin 256

/-- The bytes of a `QByteArray`. -/
abbrev QByteArray := List Byte

/-- The value of a byte read as `(unsigned char)`. -/
def ucharVal (b : Byte) : Int := (b.val : Int)

/-- The value of a byte read as a plain `char` converted to `int`
(`char` is a signed 8-bit type on the platforms YUView is built for). -/
def charVal (b : Byte) : Int := if b.val < 128 then (b.val : Int) else (b.val : Int) - 256

/-- `QByteArray::size()`, an `int`. -/
def QByteArray.size (a : QByteArray) : Int := (a.length : Int)

/-- `QByteArray::at(i)`: the byte at index `i`; `i` must be a valid index
(`0 <= i < size()`), outside of it the access is out of range. -/
def QByteArray.byteAt (a : QByteArray) (i : Int) : Option Byte :=
  if 0 ≤ i ∧ i < QByteArray.size a then a.get? i.toNat else none

/-- `QByteArray::mid(pos, len)` of Qt 5 (with `QContainerImplHelper::mid`): the
`len` bytes from position `pos`; a negative `len`, or one that reaches past the
end, gives everything from `pos` to the end; a `pos` past the end gives an empty
array. -/
def QByteArray.mid (a : QByteArray) (pos len : Int) : QByteArray :=
  if pos > QByteArray.size a then []
  else if pos < 0 then
    if len < 0 ∨ len + pos ≥ QByteArray.size a then a
    else if len + pos ≤ 0 then []
    else a.take (len + pos).toNat
  else if len < 0 ∨ len > QByteArray.size a - pos then a.drop pos.toNat
  else (a.drop pos.toNat).take len.toNat

/-! ## FFmpeg wrappers -/

/-- An `AVRational`. -/
structure AVRational where
  num : Int := 0
  den : Int := 0
deriving DecidableEq

/-- The media type of a stream (`AVMediaType`); only video is told apart. -/
inductive AVMediaType where
  | video
  | audio
  | other
deriving DecidableEq

/-- The colour space of a stream (`AVColorSpace`); only the values the class
tells apart are named. -/
inductive AVColorSpace where
  | BT2020_NCL
  | BT2020_CL
  | BT470BG
  | SMPTE170M
  | unspecified
deriving DecidableEq

/-- The colour conversion of the session (`YUV_Internals::ColorConversion`). -/
inductive ColorConversion where
  | BT709_LimitedRange
  | BT601_LimitedRange
  | BT2020_LimitedRange
deriving DecidableEq

/-- The `double` member `frameRate`, kept symbolic: either a value assigned as
such, or the quotient `num / double(den)` of a division that was evaluated. -/
inductive FrameRate where
  | value (v : Int)
  | quotient (num den : Int)
deriving DecidableEq

/-- `AV_NOPTS_VALUE`. -/
def AV_NOPTS_VALUE : Int := -9223372036854775808

/-- An `AVPacketWrapper`: `valid` is its `operator bool` (a packet is
allocated), the other fields are what its getters return. -/
structure AVPacketWrapper where
  valid : Bool := false
  stream_index : Int := 0
  pts : Int := AV_NOPTS_VALUE
  dts : Int := AV_NOPTS_VALUE
  flag_keyframe : Bool := false
  data : QByteArray := []
deriving DecidableEq

/-- `AVPacketWrapper::unref_packet`: `av_packet_unref` wipes the packet and
resets its fields to their defaults; the packet stays allocated. -/
def AVPacketWrapper.unref_packet (_p : AVPacketWrapper) : AVPacketWrapper :=
  { valid := true }

/-- An `AVCodecContextWrapper`: `valid` is its `operator bool`. -/
structure AVCodecContextWrapper where
  valid : Bool := false
  extradata : QByteArray := []
deriving DecidableEq

/-- An `AVStreamWrapper`: `valid` is its `operator bool` (a stream is
referenced), the other fields are what its getters return. -/
structure AVStreamWrapper where
  valid : Bool := false
  index : Int := 0
  codecType : AVMediaType := AVMediaType.other
  codec : AVCodecContextWrapper := {}
  avg_frame_rate : AVRational := {}
  time_base : AVRational := {}
  colorspace : AVColorSpace := AVColorSpace.unspecified
  frame_width : Int := 0
  frame_height : Int := 0
  pixel_format : Int := 0
deriving DecidableEq

/-- The result of one `av_read_frame`: a packet (return value 0), or a failure
with the negative return value `-(code + 1)` (an error or the end of the
file). -/
inductive ReadResult where
  | ok (p : AVPacketWrapper)
  | fail (code : Nat)
deriving DecidableEq

/-- The state of the demuxer behind `fmt_ctx`: the results of its next reads, in
order. When the list is used up, every further read fails (end of file). -/
structure AVFormatContextWrapper where
  pending : List ReadResult := []
  streams : List AVStreamWrapper := []
  duration : Int := 0
deriving DecidableEq

/-- `AVERROR_EOF`, as the code of a `ReadResult.fail`. -/
def eofCode : Nat := 541478724

/-- `fmt_ctx.read_frame(ff, pkt)`: the return value, the packet as filled by the
read and the demuxer afterwards. A failing read leaves the packet as it is (it
was wiped just before). -/
def AVFormatContextWrapper.read_frame (c : AVFormatContextWrapper) (pkt : AVPacketWrapper) :
    Int × AVPacketWrapper × AVFormatContextWrapper :=
  match c.pending with
  | [] => (-((eofCode : Int) + 1), pkt, c)
  | ReadResult.fail code :: rest => (-((code : Int) + 1), pkt, { c with pending := rest })
  | ReadResult.ok p :: rest => (0, { p with valid := true }, { c with pending := rest })

/-! ## The session -/

/-- Modelled from the spec: the `pictureIdx` entry of `keyFrameList`, declared
in `fileSourceFFmpegFile.h` (the header is not part of the sources). A
KeyframeIndexEntry is a frame number and a PTS, a signed timestamp in stream
time-base units, 64 bit wide as everywhere else in this class
(`pkt.get_pts()`, `seekToPTS(int64_t)`). -/
structure pictureIdx where
  frame : Int
  pts : Int
deriving DecidableEq

/-- The members of `fileSourceFFmpegFile` that the operations below use. The
default values are those the constructor sets. -/
structure fileSourceFFmpegFile where
  fileChanged : Bool := false
  isFileOpened : Bool := false
  nrFrames : Int := 0
  posInFile : Int := -1
  endOfFile : Bool := false
  duration : Int := -1
  timeBase : AVRational := { num := 0, den := 0 }
  frameRate : FrameRate := FrameRate.value (-1)
  colorConversionType : ColorConversion := ColorConversion.BT709_LimitedRange
  pixelFormat : Int := 0
  frameSize : Int × Int := (0, 0)
  fmt_ctx : AVFormatContextWrapper := {}
  video_stream : AVStreamWrapper := {}
  pkt : AVPacketWrapper := {}
  currentPacketData : QByteArray := []
  posInData : Int := 0
  keyFrameList : List pictureIdx := []
deriving DecidableEq

/-! ## Seek planner -/

/-- The range-for loop of `getClosestSeekableDTSBefore` over the entries still
to visit; the pair carried is (`bestSeekPTS`, `seekToFrameIdx`), both `int`. -/
def closestSeekableLoop (frameIdx : Int) : List pictureIdx → Int × Int → Int × Int
  | [], best => best
  | idx :: rest, best =>
    if idx.frame ≥ 0 then
      if idx.frame ≤ frameIdx then
        closestSeekableLoop frameIdx rest (toInt32 idx.pts, toInt32 idx.frame)
      else best
    else closestSeekableLoop frameIdx rest best

/-- `getClosestSeekableDTSBefore(frameIdx, seekToFrameIdx)`: the returned
`int` and the value left in `seekToFrameIdx`; `none` when `keyFrameList[0]`
does not exist. -/
def getClosestSeekableDTSBefore (self : fileSourceFFmpegFile) (frameIdx : Int) :
    Option (Int × Int) :=
  match self.keyFrameList with
  | [] => none
  | first :: _ =>
    some (closestSeekableLoop frameIdx self.keyFrameList (toInt32 first.pts, toInt32 first.frame))

/-! ## Packet iterator -/

/-- The do-while loop of `goToNextVideoPacket`, by recursion on the reads the
demuxer still has to give: wipe the held packet when there is one, read the next
packet (`fmt_ctx.read_frame`, see `AVFormatContextWrapper.read_frame`) and go on
while the read succeeded with a packet of another stream. The result is `ret`,
the packet held and the reads left. -/
def goToNextVideoPacketLoop (videoIndex : Int) :
    List ReadResult → AVPacketWrapper → Int × AVPacketWrapper × List ReadResult
  | [], pkt =>
    (-((eofCode : Int) + 1), (if pkt.valid then pkt.unref_packet else pkt), [])
  | ReadResult.fail code :: rest, pkt =>
    (-((code : Int) + 1), (if pkt.valid then pkt.unref_packet else pkt), rest)
  | ReadResult.ok p :: rest, _ =>
    if p.stream_index ≠ videoIndex then
      goToNextVideoPacketLoop videoIndex rest { p with valid := true }
    else (0, { p with valid := true }, rest)

/-- `goToNextVideoPacket()`: the returned `bool` and the session afterwards. -/
def goToNextVideoPacket (self : fileSourceFFmpegFile) : Bool × fileSourceFFmpegFile :=
  let r := goToNextVideoPacketLoop self.video_stream.index self.fmt_ctx.pending self.pkt
  let s1 : fileSourceFFmpegFile :=
    { self with pkt := r.2.1, fmt_ctx := { self.fmt_ctx with pending := r.2.2 } }
  if r.1 < 0 then (false, { s1 with endOfFile := true }) else (true, s1)

/-- `getNextPacket(getLastPackage)`: the returned packet wrapper (the null
wrapper `AVPacketWrapper()` at the end of the stream) and the session
afterwards. -/
def getNextPacket (self : fileSourceFFmpegFile) (getLastPackage : Bool) :
    AVPacketWrapper × fileSourceFFmpegFile :=
  if getLastPackage then (self.pkt, self)
  else
    let r := goToNextVideoPacket self
    if !r.1 then (({} : AVPacketWrapper), { r.2 with posInFile := -1 })
    else (r.2.pkt, r.2)

/-! ## NAL unit extractor -/

/-- What `getNextNALUnit` gives back: the returned byte array, the value written
to `*pts` (nothing is written at the end of the stream) and the session
afterwards. -/
structure NALResult where
  nal : QByteArray
  pts : Option Int
  session : fileSourceFFmpegFile
deriving DecidableEq

/-- The second half of `getNextNALUnit` (from `sizePart` on), on a session with
a payload loaded: decode the 4-byte size, slice the unit and move the cursor.
`none` when `sizePart.at(..)` is out of range (fewer than 4 bytes left). -/
def getNextNALUnit_slice (self : fileSourceFFmpegFile) : Option NALResult :=
  let sizePart := QByteArray.mid self.currentPacketData self.posInData 4
  match QByteArray.byteAt sizePart 3, QByteArray.byteAt sizePart 2,
      QByteArray.byteAt sizePart 1, QByteArray.byteAt sizePart 0 with
  | some b3, some b2, some b1, some b0 =>
    let size0 : Int := toUInt32 (ucharVal b3)
    let size1 : Int := toUInt32 (size0 + ucharVal b2 * 256)
    let size2 : Int := toUInt32 (size1 + ucharVal b1 * 65536)
    let size : Int := toUInt32 (size2 + ucharVal b0 * 16777216)
    let retArray := QByteArray.mid self.currentPacketData (toInt32 (self.posInData + 4)) (toInt32 size)
    let posInData := toInt32 (toUInt32 (toUInt32 self.posInData + toUInt32 (4 + size)))
    let s1 : fileSourceFFmpegFile := { self with posInData := posInData }
    let s2 : fileSourceFFmpegFile :=
      if posInData ≥ QByteArray.size s1.currentPacketData then { s1 with currentPacketData := [] }
      else s1
    some { nal := retArray, pts := some (toUInt64 self.pkt.pts), session := s2 }
  | _, _, _, _ => none

/-- `getNextNALUnit(pts)` (called with a non-null `pts`). `currentPacketData` is
kept as the bytes of the payload; this is what the source reads as long as the
packet the payload was loaded from is still held. What a release of that packet
does to a loaded payload is added by `TrackedSession`. -/
def getNextNALUnit (self : fileSourceFFmpegFile) : Option NALResult :=
  if self.currentPacketData.isEmpty then
    let r := goToNextVideoPacket self
    if !r.1 then
      some { nal := [], pts := none, session := { r.2 with posInFile := -1 } }
    else
      getNextNALUnit_slice { r.2 with currentPacketData := r.2.pkt.data, posInData := 0 }
  else getNextNALUnit_slice self

/-! ## Extradata -/

/-- `getExtradata()`. -/
def getExtradata (self : fileSourceFFmpegFile) : QByteArray :=
  if !self.video_stream.valid then []
  else if !self.video_stream.codec.valid then []
  else self.video_stream.codec.extradata

/-- The two-byte count and length decoding of `getParameterSets`:
`(unsigned char)b0 << 7` plus `(unsigned char)b1`. -/
def shift7 (b0 b1 : Byte) : Int := ucharVal b0 * 128 + ucharVal b1

/-- The inner loop of `getParameterSets` (`for j < numNalus`), by recursion on
the iterations left: the position and the list after it, `none` on an
out-of-range `at`. -/
def parameterSetNalLoop (extradata : QByteArray) :
    Nat → Int → List QByteArray → Option (Int × List QByteArray)
  | 0, pos, retArray => some (pos, retArray)
  | left + 1, pos, retArray =>
    match QByteArray.byteAt extradata pos, QByteArray.byteAt extradata (toInt32 (pos + 1)) with
    | some b0, some b1 =>
      let pos2 := toInt32 (toInt32 (pos + 1) + 1)
      let nalUnitLength := shift7 b0 b1
      let rawNAL := QByteArray.mid extradata pos2 nalUnitLength
      parameterSetNalLoop extradata left (toInt32 (pos2 + nalUnitLength)) (retArray ++ [rawNAL])
    | _, _ => none

/-- The outer loop of `getParameterSets` (`for i < numOfArrays`), by recursion on
the iterations left. -/
def parameterSetArrayLoop (extradata : QByteArray) :
    Nat → Int → List QByteArray → Option (Int × List QByteArray)
  | 0, pos, retArray => some (pos, retArray)
  | left + 1, pos, retArray =>
    let pos1 := toInt32 (pos + 1)
    match QByteArray.byteAt extradata pos1, QByteArray.byteAt extradata (toInt32 (pos1 + 1)) with
    | some b0, some b1 =>
      let pos3 := toInt32 (toInt32 (pos1 + 1) + 1)
      let numNalus := shift7 b0 b1
      match parameterSetNalLoop extradata numNalus.toNat pos3 retArray with
      | some r => parameterSetArrayLoop extradata left r.1 r.2
      | none => none
    | _, _ => none

/-- `getParameterSets()`: the returned list, `none` when an `at` is out of
range. -/
def getParameterSets (self : fileSourceFFmpegFile) : Option (List QByteArray) :=
  let extradata := getExtradata self
  match QByteArray.byteAt extradata 0 with
  | none => none
  | some v =>
    if charVal v = 1 then
      match QByteArray.byteAt extradata 22 with
      | none => none
      | some n =>
        let numOfArrays : Int := charVal n
        (parameterSetArrayLoop extradata numOfArrays.toNat 23 []).map (fun r => r.2)
    else some []

/-! ## Seek index builder and seeking -/

/-- The while loop of `scanBitstream`. `nrFrames` is an `int`: `nrFrames++` is
the increment of a 32-bit counter. Every turn that goes on reads at least one
packet, so `fuel` above the number of reads left is never used up; `none`
stands for a loop cut short. -/
def scanBitstreamLoop : Nat → fileSourceFFmpegFile → Option fileSourceFFmpegFile
  | 0, _ => none
  | fuel + 1, self =>
    let r := goToNextVideoPacket self
    if r.1 then
      let s1 : fileSourceFFmpegFile :=
        if r.2.pkt.flag_keyframe then
          { r.2 with keyFrameList := r.2.keyFrameList ++ [pictureIdx.mk r.2.nrFrames r.2.pkt.pts] }
        else r.2
      scanBitstreamLoop fuel { s1 with nrFrames := toInt32 (s1.nrFrames + 1) }
    else some r.2

/-- `scanBitstream()`. -/
def scanBitstream (self : fileSourceFFmpegFile) : Option fileSourceFFmpegFile :=
  scanBitstreamLoop (self.fmt_ctx.pending.length + 1) { self with nrFrames := 0 }

/-- `seekToPTS(pts)`. `seek_frame` is FFmpeg's seek on the demuxer (through
`ff.seek_frame`): its return value and the demuxer it leaves. -/
def seekToPTS (seek_frame : AVFormatContextWrapper → Int → Int → Int × AVFormatContextWrapper)
    (self : fileSourceFFmpegFile) (pts : Int) : Bool × fileSourceFFmpegFile :=
  if !self.isFileOpened then (false, self)
  else
    let r := seek_frame self.fmt_ctx self.video_stream.index pts
    let s1 : fileSourceFFmpegFile := { self with fmt_ctx := r.2 }
    if r.1 ≠ 0 then (false, s1)
    else (true, { s1 with endOfFile := false })

/-! ## Opening a file -/

/-- The loop of `openFileAndFindVideoStream` over the stream table: the first
stream whose codec type is video is taken (a stream of the table is a
referenced stream); `video_stream` keeps its value when there is none. -/
def findVideoStream : List AVStreamWrapper → AVStreamWrapper → AVStreamWrapper
  | [], video_stream => video_stream
  | stream :: rest, video_stream =>
    if stream.codecType = AVMediaType.video then { stream with valid := true }
    else findVideoStream rest video_stream

/-- `openFileAndFindVideoStream(fileName)`. `librariesLoad` is the result of
`ff.loadFFmpegLibraries()`, `open_input` what `ff.open_input` gives: the opened
container, or nothing when the input does not open. -/
def openFileAndFindVideoStream (librariesLoad : Bool)
    (open_input : Option AVFormatContextWrapper) (self : fileSourceFFmpegFile) :
    fileSourceFFmpegFile :=
  let s0 : fileSourceFFmpegFile := { self with isFileOpened := false }
  if !librariesLoad then s0
  else
    match open_input with
    | none => s0
    | some ctx =>
      let s1 : fileSourceFFmpegFile :=
        { s0 with fmt_ctx := ctx, video_stream := findVideoStream ctx.streams s0.video_stream }
      if !s1.video_stream.valid then s1
      else
        let avgFrameRate := s1.video_stream.avg_frame_rate
        let colSpace := s1.video_stream.colorspace
        { s1 with
          pkt := { valid := true },
          frameRate :=
            if avgFrameRate.den = 0 then FrameRate.value (-1)
            else FrameRate.quotient avgFrameRate.num avgFrameRate.den,
          pixelFormat := s1.video_stream.pixel_format,
          duration := ctx.duration,
          timeBase := s1.video_stream.time_base,
          frameSize := (s1.video_stream.frame_width, s1.video_stream.frame_height),
          colorConversionType :=
            if colSpace = AVColorSpace.BT2020_NCL ∨ colSpace = AVColorSpace.BT2020_CL then
              ColorConversion.BT2020_LimitedRange
            else if colSpace = AVColorSpace.BT470BG ∨ colSpace = AVColorSpace.SMPTE170M then
              ColorConversion.BT601_LimitedRange
            else ColorConversion.BT709_LimitedRange,
          isFileOpened := true }

/-- `openFile(filePath, other)`: the returned `bool` and the session afterwards.
`fileExists` is `fileInfo.exists() && fileInfo.isFile()`; `none` stands for a
scan cut short (see `scanBitstreamLoop`). -/
def openFile (fileExists librariesLoad : Bool) (open_input : Option AVFormatContextWrapper)
    (seek_frame : AVFormatContextWrapper → Int → Int → Int × AVFormatContextWrapper)
    (other : Option fileSourceFFmpegFile) (self : fileSourceFFmpegFile) :
    Option (Bool × fileSourceFFmpegFile) :=
  if !fileExists then some (false, self)
  else
    let s1 := openFileAndFindVideoStream librariesLoad open_input self
    if !s1.isFileOpened then some (false, s1)
    else
      let s2 : fileSourceFFmpegFile := { s1 with fileChanged := false }
      let scanned : Option fileSourceFFmpegFile :=
        match other with
        | some o =>
          if o.isFileOpened then
            some { s2 with nrFrames := o.nrFrames, keyFrameList := o.keyFrameList }
          else scanBitstream s2
        | none => scanBitstream s2
      match scanned with
      | none => none
      | some s3 => some (true, (seekToPTS seek_frame s3 0).2)

/-- How the evaluation of an `int64_t` expression with divisions ends: with a
value, in a division by zero, or in the division `INT64_MIN / -1`, whose
quotient an `int64_t` cannot hold (both divisions are faults, no value is
returned). -/
inductive Int64Result where
  | value (v : Int)
  | divisionByZero
  | divisionOverflow
deriving DecidableEq

/-- The smallest `int64_t`. -/
def INT64_MIN : Int := -9223372036854775808

/-- `getMaxPTS()`: `duration * timeBase.den / timeBase.num / 1000` in `int64_t`,
left to right, with the division of C++ (truncating). The division by
`timeBase.num` is a division by zero when `timeBase.num` is 0, and overflows
when the product is `INT64_MIN` and `timeBase.num` is -1; the division by 1000
has neither fault. -/
def getMaxPTS (self : fileSourceFFmpegFile) : Int64Result :=
  if !self.isFileOpened then Int64Result.value (-1)
  else
    let product := toInt64 (self.duration * self.timeBase.den)
    if self.timeBase.num = 0 then Int64Result.divisionByZero
    else if product = INT64_MIN ∧ self.timeBase.num = -1 then Int64Result.divisionOverflow
    else
      Int64Result.value
        (toInt64 (Int.tdiv (toInt64 (Int.tdiv product self.timeBase.num)) 1000))

/-! ## Specification-side vocabulary -/

/-- A value that a 32-bit signed `int` can hold. -/
def fitsInt32 (x : Int) : Prop := -2147483648 ≤ x ∧ x < 2147483648

instance (x : Int) : Decidable (fitsInt32 x) := by unfold fitsInt32; infer_instance

/-- The entry the seek planner is to pick: the last entry of the index whose
frame number is at most `target`, the entry `first` when there is none. -/
def lastEntryAtOrBefore (index : List pictureIdx) (target : Int) (first : pictureIdx) :
    pictureIdx :=
  ((index.filter (fun e => decide (e.frame ≤ target))).getLast?).getD first

/-- The packets the container hands out before its first failing read, in read
order. -/
def packetsBeforeFailure : List ReadResult → List AVPacketWrapper
  | [] => []
  | ReadResult.fail _ :: _ => []
  | ReadResult.ok p :: rest => p :: packetsBeforeFailure rest

/-- The packets of the stream `videoIndex` read before the first failing read. -/
def videoPacketsRead (videoIndex : Int) (pending : List ReadResult) : List AVPacketWrapper :=
  (packetsBeforeFailure pending).filter (fun p => decide (p.stream_index = videoIndex))

/-- The seek index of a run of video packets whose first packet is number `k`:
`(k', pts)` for each packet with the keyframe flag, `k'` being its number. -/
def keyFrameEntriesFrom (k : Nat) (videoPackets : List AVPacketWrapper) : List pictureIdx :=
  ((videoPackets.enumFrom k).filter (fun kp => kp.2.flag_keyframe)).map
    (fun kp => pictureIdx.mk (kp.1 : Int) kp.2.pts)

/-- The seek index of a run of video packets: `(k, pts)` for each packet with
the keyframe flag, `k` being the number of video packets before it. -/
def keyFrameEntries (videoPackets : List AVPacketWrapper) : List pictureIdx :=
  keyFrameEntriesFrom 0 videoPackets

/-- The 4-byte big-endian length prefix of a NAL unit of `n` bytes
(most-significant byte first). -/
def len_be32 (n : Nat) : QByteArray :=
  [Fin.ofNat (n / 16777216), Fin.ofNat (n / 65536), Fin.ofNat (n / 256), Fin.ofNat n]

/-- The payload of a packet that carries the blocks `B1..Bn`: the
concatenation of `len_be32(Bi) ++ Bi`. -/
def nalFraming : List QByteArray → QByteArray
  | [] => []
  | b :: rest => len_be32 b.length ++ (b ++ nalFraming rest)

/-- The returned arrays and reported PTS values of `n` successive
`getNextNALUnit` calls, and the session after them; `none` when one of the calls
makes an out-of-range access. -/
def getNextNALUnits :
    Nat → fileSourceFFmpegFile → Option (List (QByteArray × Option Int) × fileSourceFFmpegFile)
  | 0, s => some ([], s)
  | n + 1, s =>
    match getNextNALUnit s with
    | none => none
    | some r =>
      match getNextNALUnits n r.session with
      | none => none
      | some rs => some ((r.nal, r.pts) :: rs.1, rs.2)

/-- One NAL unit of a parameter-set array as it lies in the extradata: the two
length bytes and the payload (NAL header included). -/
structure ParameterSetNal where
  len0 : Byte
  len1 : Byte
  payload : QByteArray

/-- One parameter-set array as it lies in the extradata: the type byte, the two
bytes of the NAL count and the NAL units. -/
structure ParameterSetArray where
  arrayType : Byte
  count0 : Byte
  count1 : Byte
  nals : List ParameterSetNal

/-- The length bytes of a NAL unit, read as `(b0 << 7) + b1`, give the number of
payload bytes. -/
def ParameterSetNal.wellFormed (n : ParameterSetNal) : Prop :=
  n.payload.length = n.len0.val * 128 + n.len1.val

/-- The count bytes of an array, read as `(b0 << 7) + b1`, give the number of its
NAL units, and each of them is well formed. -/
def ParameterSetArray.wellFormed (a : ParameterSetArray) : Prop :=
  a.nals.length = a.count0.val * 128 + a.count1.val ∧ ∀ n ∈ a.nals, n.wellFormed

/-- The bytes of a run of NAL units: per unit the two length bytes, then the
payload. -/
def encodeNals : List ParameterSetNal → QByteArray
  | [] => []
  | n :: rest => [n.len0, n.len1] ++ (n.payload ++ encodeNals rest)

/-- The bytes of a run of parameter-set arrays: per array the type byte, the two
count bytes, then its NAL units. -/
def encodeArrays : List ParameterSetArray → QByteArray
  | [] => []
  | a :: rest => [a.arrayType, a.count0, a.count1] ++ (encodeNals a.nals ++ encodeArrays rest)

/-- The payloads of all NAL units, in array order and then in per-array order. -/
def parameterSetPayloads : List ParameterSetArray → List QByteArray
  | [] => []
  | a :: rest => a.nals.map (fun n => n.payload) ++ parameterSetPayloads rest

/-- A session together with what the byte-wise model of `currentPacketData`
leaves out. `QByteArray::fromRawData` in `getNextNALUnit` does not copy:
`currentPacketData` refers to the data buffer of the packet that was held when
the payload was loaded, and `pkt.unref_packet` in `goToNextVideoPacket`
releases that buffer. `payloadReleased` says that the buffer behind the loaded
payload has been released; reading the payload then has no defined result. -/
structure TrackedSession where
  session : fileSourceFFmpegFile
  payloadReleased : Bool := false
deriving DecidableEq

/-- `goToNextVideoPacket()` with the buffer of the payload tracked: the held
packet is wiped before the first read, so a payload that is loaded at the call
loses its buffer. -/
def TrackedSession.goToNextVideoPacket (t : TrackedSession) : Bool × TrackedSession :=
  let r := YUView.goToNextVideoPacket t.session
  (r.1, { session := r.2,
          payloadReleased :=
            t.payloadReleased || (t.session.pkt.valid && !t.session.currentPacketData.isEmpty) })

/-- `getNextPacket(getLastPackage)` with the buffer of the payload tracked. -/
def TrackedSession.getNextPacket (t : TrackedSession) (getLastPackage : Bool) :
    AVPacketWrapper × TrackedSession :=
  if getLastPackage then (t.session.pkt, t)
  else
    let r := YUView.getNextPacket t.session false
    (r.1, { session := r.2,
            payloadReleased :=
              t.payloadReleased || (t.session.pkt.valid && !t.session.currentPacketData.isEmpty) })

/-- `getNextNALUnit(pts)` with the buffer of the payload tracked: the returned
array and PTS and the session afterwards; `none` when the call reads a loaded
payload whose buffer has been released, or makes an out-of-range access. A
payload that the call loads itself refers to the packet just read. -/
def TrackedSession.getNextNALUnit (t : TrackedSession) :
    Option (QByteArray × Option Int × TrackedSession) :=
  if !t.session.currentPacketData.isEmpty && t.payloadReleased then none
  else
    match YUView.getNextNALUnit t.session with
    | none => none
    | some r => some (r.nal, r.pts, { session := r.session, payloadReleased := false })

/-- The three calls that move the packet iterator. -/
inductive IteratorCall where
  | goToNextVideoPacket
  | getNextPacket
  | getNextNALUnit
deriving DecidableEq

/-- One call of the packet iterator: whether it reported the end of the stream
(`goToNextVideoPacket` returned false, `getNextPacket(false)` returned the null
packet, `getNextNALUnit` returned an empty array) and the session afterwards;
`none` when the call has no defined result. -/
def IteratorCall.run : IteratorCall → TrackedSession → Option (Bool × TrackedSession)
  | IteratorCall.goToNextVideoPacket, t =>
    let r := TrackedSession.goToNextVideoPacket t
    some (!r.1, r.2)
  | IteratorCall.getNextPacket, t =>
    let r := TrackedSession.getNextPacket t false
    some (!r.1.valid, r.2)
  | IteratorCall.getNextNALUnit, t =>
    match TrackedSession.getNextNALUnit t with
    | none => none
    | some r => some (r.1.isEmpty, r.2.2)

/-- A sequence of calls of the packet iterator, one after the other: what each
reported and the session after the last. -/
def runCalls : List IteratorCall → TrackedSession → Option (List Bool × TrackedSession)
  | [], t => some ([], t)
  | c :: rest, t =>
    match c.run t with
    | none => none
    | some r =>
      match runCalls rest r.2 with
      | none => none
      | some rs => some (r.1 :: rs.1, rs.2)

/-- Every read the container still has to give fails. -/
def everyReadFails (pending : List ReadResult) : Prop :=
  ∀ r ∈ pending, ∃ code, r = ReadResult.fail code

/-! ## Example sessions -/

/-- A session opened on a container whose stream 0 is the video stream, with the
given reads ahead. -/
def openedSession (pending : List ReadResult) : fileSourceFFmpegFile :=
  { isFileOpened := true,
    video_stream := { valid := true, index := 0, codecType := AVMediaType.video },
    pkt := { valid := true },
    fmt_ctx := { pending := pending } }

/-- A packet of stream 0. -/
def videoPacket (pts : Int) (key : Bool) (data : QByteArray) : AVPacketWrapper :=
  { valid := true, stream_index := 0, pts := pts, dts := pts, flag_keyframe := key, data := data }

/-- A packet of stream 1. -/
def audioPacket (pts : Int) : AVPacketWrapper :=
  { valid := true, stream_index := 1, pts := pts, dts := pts, flag_keyframe := true,
    data := [7, 7, 7] }

/-- A video packet that carries the two NAL units `[1, 2]` and `[3]`. -/
def twoUnitPacket : AVPacketWrapper := videoPacket 40 true (nalFraming [[1, 2], [3]])

/-- A video packet that carries the one NAL unit `[9]`. -/
def oneUnitPacket : AVPacketWrapper := videoPacket 80 true (nalFraming [[9]])

/-- A seek that succeeds and leaves the demuxer in front of `oneUnitPacket`. -/
def seekToOneUnitPacket (c : AVFormatContextWrapper) (_streamIndex _pts : Int) :
    Int × AVFormatContextWrapper :=
  (0, { c with pending := [ReadResult.ok oneUnitPacket] })

/-- A seek that fails and leaves the demuxer as it is. -/
def seekFails (c : AVFormatContextWrapper) (_streamIndex _pts : Int) :
    Int × AVFormatContextWrapper :=
  (-1, c)

/-- An extradata record with one array of two NAL units, `[64, 1, 12]` and
`[66, 1]`. -/
def exampleExtradata : QByteArray :=
  1 :: List.replicate 21 0 ++ [1] ++ [32, 0, 2] ++ [0, 3, 64, 1, 12] ++ [0, 2, 66, 1]

/-- A session whose video stream carries `exampleExtradata`. -/
def extradataSession : fileSourceFFmpegFile :=
  { video_stream := { valid := true, codec := { valid := true, extradata := exampleExtradata } } }


/-- The one array of `exampleExtradata`: type byte 32, count bytes `0, 2`, and
the two NAL units with length bytes `0, 3` and `0, 2`. -/
def exampleArrays : List ParameterSetArray :=
  [{ arrayType := 32, count0 := 0, count1 := 2,
     nals := [{ len0 := 0, len1 := 3, payload := [64, 1, 12] },
              { len0 := 0, len1 := 2, payload := [66, 1] }] }]

/-- A container with an audio packet, two video packets (the second one a
keyframe), a failing read and one more video packet behind it. -/
def scanExample : List ReadResult :=
  [ReadResult.ok (audioPacket 0), ReadResult.ok (videoPacket 0 false []),
   ReadResult.ok (videoPacket 5 true []), ReadResult.fail 3,
   ReadResult.ok (videoPacket 7 true [])]


/-- A value that a 64-bit signed `int64_t` can hold. -/
def fitsInt64 (x : Int) : Prop := -9223372036854775808 ≤ x ∧ x < 9223372036854775808

instance (x : Int) : Decidable (fitsInt64 x) := by unfold fitsInt64; infer_instance


/-- A stream table with an audio stream and two video streams behind it; the
first video stream has no average frame rate (0/0), the second has 25/1. -/
def exampleStreams : List AVStreamWrapper :=
  [{ valid := true, index := 0, codecType := AVMediaType.audio },
   { valid := true, index := 1, codecType := AVMediaType.video,
     avg_frame_rate := { num := 0, den := 0 }, time_base := { num := 1, den := 90000 } },
   { valid := true, index := 2, codecType := AVMediaType.video,
     avg_frame_rate := { num := 25, den := 1 }, time_base := { num := 1, den := 25 } }]

/-- A container with `exampleStreams` whose reads give a keyframe and a further
packet of stream 1 and a packet of stream 0. -/
def exampleContainer : AVFormatContextWrapper :=
  { streams := exampleStreams, duration := 90000000,
    pending := [ReadResult.ok { valid := true, stream_index := 1, pts := 0, flag_keyframe := true },
                ReadResult.ok { valid := true, stream_index := 0, pts := 1 },
                ReadResult.ok { valid := true, stream_index := 1, pts := 3600 }] }

/-- A container with one video stream that has the average frame rate 25/1. -/
def frameRateContainer : AVFormatContextWrapper :=
  { streams := [{ valid := true, index := 0, codecType := AVMediaType.video,
                  avg_frame_rate := { num := 25, den := 1 } }] }


/-- The length that a 4-byte prefix declares: its big-endian unsigned 32-bit
value. -/
def declaredLength (b0 b1 b2 b3 : Byte) : Int :=
  (b0.val : Int) * 16777216 + (b1.val : Int) * 65536 + (b2.val : Int) * 256 + (b3.val : Int)


/-- An extradata record that declares 128 arrays at offset 22, each array with
one NAL unit of one byte. -/
def manyArraysExtradata : QByteArray :=
  (1 :: List.replicate 21 0) ++ (128 :: encodeArrays (List.replicate 128
    { arrayType := 32, count0 := 0, count1 := 1,
      nals := [{ len0 := 0, len1 := 1, payload := [66] }] }))

/-- A session whose video stream carries `manyArraysExtradata`. -/
def manyArraysSession : fileSourceFFmpegFile :=
  { video_stream := { valid := true, codec := { valid := true, extradata := manyArraysExtradata } } }


/-! ## Lemmas: machine integers -/

theorem toInt32_of_fits (x : Int) (h : fitsInt32 x) : toInt32 x = x := by
  unfold fitsInt32 at h
  unfold toInt32
  omega

theorem toUInt32_of_range (x : Int) (h0 : 0 ≤ x) (h1 : x < 4294967296) : toUInt32 x = x := by
  unfold toUInt32
  omega

/-! ## Lemmas: seek planner -/

theorem closestSeekableLoop_none_qualifies (t : Int) (l : List pictureIdx) (best : Int × Int)
    (hgt : ∀ e ∈ l, t < e.frame) (hnn : ∀ e ∈ l, 0 ≤ e.frame) :
    closestSeekableLoop t l best = best := by
  cases l with
  | nil => rfl
  | cons a rest =>
    have h1 := hgt a (List.mem_cons_self _ _)
    have h2 := hnn a (List.mem_cons_self _ _)
    simp only [closestSeekableLoop]
    rw [if_pos (by omega), if_neg (by omega)]

theorem filter_le_eq_nil (t : Int) (l : List pictureIdx) (hgt : ∀ e ∈ l, t < e.frame) :
    l.filter (fun e => decide (e.frame ≤ t)) = [] := by
  rw [List.filter_eq_nil_iff]
  intro e he
  have := hgt e he
  simp only [decide_eq_true_eq]
  omega

theorem closestSeekableLoop_spec (t : Int) (l : List pictureIdx) :
    ∀ best : Int × Int,
    l.Pairwise (fun a b => a.frame < b.frame) →
    (∀ e ∈ l, 0 ≤ e.frame) →
    (∀ e ∈ l, fitsInt32 e.pts ∧ fitsInt32 e.frame) →
    closestSeekableLoop t l best =
      match (l.filter (fun e => decide (e.frame ≤ t))).getLast? with
      | some e => (e.pts, e.frame)
      | none => best := by
  induction l with
  | nil => intro best _ _ _; rfl
  | cons a rest ih =>
    intro best hs hnn hfit
    have hs2 := List.pairwise_cons.mp hs
    have ha := hnn a (List.mem_cons_self _ _)
    have hfa := hfit a (List.mem_cons_self _ _)
    have hnn2 : ∀ e ∈ rest, 0 ≤ e.frame := fun e he => hnn e (List.mem_cons_of_mem _ he)
    have hfit2 : ∀ e ∈ rest, fitsInt32 e.pts ∧ fitsInt32 e.frame :=
      fun e he => hfit e (List.mem_cons_of_mem _ he)
    by_cases hle : a.frame ≤ t
    · simp only [closestSeekableLoop]
      rw [if_pos (by omega), if_pos hle, ih _ hs2.2 hnn2 hfit2]
      rw [List.filter_cons_of_pos (by simpa using hle)]
      rw [toInt32_of_fits _ hfa.1, toInt32_of_fits _ hfa.2]
      cases hrest : rest.filter (fun e => decide (e.frame ≤ t)) with
      | nil => simp
      | cons b bs =>
        rw [List.getLast?_cons_cons]
        rw [List.getLast?_eq_getLast _ (List.cons_ne_nil b bs)]
    · have hgt : ∀ e ∈ rest, t < e.frame := by
        intro e he
        have := hs2.1 e he
        omega
      simp only [closestSeekableLoop]
      rw [if_pos (by omega), if_neg hle]
      rw [List.filter_cons_of_neg (by simpa using hle), filter_le_eq_nil t rest hgt]
      rfl

/-- Away from the narrowing to `int`, the seek planner is right: on a non-empty
index with non-negative, strictly ascending frame numbers whose entries fit an
`int`, it returns the PTS and the frame number of the last entry at or before
the target, those of the first entry when there is none. -/
theorem getClosestSeekableDTSBefore_of_fits (self : fileSourceFFmpegFile)
    (first : pictureIdx) (rest : List pictureIdx) (target : Int)
    (hl : self.keyFrameList = first :: rest)
    (hs : self.keyFrameList.Pairwise (fun a b => a.frame < b.frame))
    (hnn : ∀ e ∈ self.keyFrameList, 0 ≤ e.frame)
    (hfit : ∀ e ∈ self.keyFrameList, fitsInt32 e.pts ∧ fitsInt32 e.frame) :
    getClosestSeekableDTSBefore self target =
      some ((lastEntryAtOrBefore self.keyFrameList target first).pts,
            (lastEntryAtOrBefore self.keyFrameList target first).frame) := by
  have hloop := closestSeekableLoop_spec target self.keyFrameList
    (toInt32 first.pts, toInt32 first.frame) hs hnn hfit
  have hf := hfit first (by rw [hl]; exact List.mem_cons_self _ _)
  unfold getClosestSeekableDTSBefore lastEntryAtOrBefore
  rw [hl] at hloop ⊢
  simp only
  rw [hloop, toInt32_of_fits _ hf.1, toInt32_of_fits _ hf.2]
  cases (List.filter (fun e => decide (e.frame ≤ target)) (first :: rest)).getLast? <;> rfl

/-! ## Lemmas: packet iterator -/

/-- The loop of `goToNextVideoPacket` is the do-while of the source over
`read_frame`: wipe, read, and go round again on a packet of another stream. -/
theorem goToNextVideoPacketLoop_unfold (videoIndex : Int) (c : AVFormatContextWrapper)
    (pkt : AVPacketWrapper) :
    goToNextVideoPacketLoop videoIndex c.pending pkt =
      (let r := c.read_frame (if pkt.valid then pkt.unref_packet else pkt)
       if r.1 = 0 ∧ r.2.1.stream_index ≠ videoIndex then
         goToNextVideoPacketLoop videoIndex r.2.2.pending r.2.1
       else (r.1, r.2.1, r.2.2.pending)) := by
  rcases c with ⟨pending, streams, duration⟩
  cases pending with
  | nil => simp [goToNextVideoPacketLoop, AVFormatContextWrapper.read_frame, eofCode]
  | cons r rest =>
    cases r with
    | fail code =>
      have : ¬ (-1 + -(code : Int) = 0) := by omega
      simp [goToNextVideoPacketLoop, AVFormatContextWrapper.read_frame, this]
    | ok p =>
      by_cases h : p.stream_index = videoIndex
      · simp [goToNextVideoPacketLoop, AVFormatContextWrapper.read_frame, h]
      · simp [goToNextVideoPacketLoop, AVFormatContextWrapper.read_frame, h]

theorem goToNextVideoPacketLoop_found (videoIndex : Int) (others : List AVPacketWrapper)
    (p : AVPacketWrapper) (rest : List ReadResult)
    (ho : ∀ q ∈ others, q.stream_index ≠ videoIndex) (hp : p.stream_index = videoIndex) :
    ∀ pkt, goToNextVideoPacketLoop videoIndex (others.map ReadResult.ok ++ ReadResult.ok p :: rest) pkt
      = (0, { p with valid := true }, rest) := by
  induction others with
  | nil =>
    intro pkt
    simp [goToNextVideoPacketLoop, hp]
  | cons q qs ih =>
    intro pkt
    have hq := ho q (List.mem_cons_self _ _)
    have ih2 := ih (fun x hx => ho x (List.mem_cons_of_mem _ hx))
    simp only [List.map_cons, List.cons_append, goToNextVideoPacketLoop]
    rw [if_pos hq]
    exact ih2 _

/-- The loop either stops at the first packet of the video stream, with `ret`
0, or it meets a failing read before any such packet, with `ret` negative. -/
theorem goToNextVideoPacketLoop_cases (videoIndex : Int) (pending : List ReadResult) :
    ∀ pkt,
    (∃ (others : List AVPacketWrapper) (p : AVPacketWrapper) (rest : List ReadResult),
        pending = others.map ReadResult.ok ++ ReadResult.ok p :: rest
        ∧ (∀ q ∈ others, q.stream_index ≠ videoIndex) ∧ p.stream_index = videoIndex
        ∧ goToNextVideoPacketLoop videoIndex pending pkt = (0, { p with valid := true }, rest))
    ∨ ((goToNextVideoPacketLoop videoIndex pending pkt).1 < 0
        ∧ videoPacketsRead videoIndex pending = []) := by
  induction pending with
  | nil =>
    intro pkt
    right
    simp only [goToNextVideoPacketLoop, videoPacketsRead, packetsBeforeFailure, List.filter_nil,
      and_true]
    unfold eofCode
    omega
  | cons r rest ih =>
    intro pkt
    cases r with
    | fail code =>
      right
      simp only [goToNextVideoPacketLoop, videoPacketsRead, packetsBeforeFailure, List.filter_nil,
        and_true]
      omega
    | ok p =>
      by_cases h : p.stream_index = videoIndex
      · left
        refine ⟨[], p, rest, by simp, by simp, h, ?_⟩
        simp [goToNextVideoPacketLoop, h]
      · rcases ih { p with valid := true } with ⟨others, p2, rest2, hdec, ho, hp2, hres⟩ | ⟨hneg, hnil⟩
        · left
          refine ⟨p :: others, p2, rest2, by simp [hdec], ?_, hp2, ?_⟩
          · intro q hq
            rcases List.mem_cons.mp hq with rfl | hq
            · exact h
            · exact ho q hq
          · simp only [goToNextVideoPacketLoop]
            rw [if_pos h]
            exact hres
        · right
          constructor
          · simp only [goToNextVideoPacketLoop]
            rw [if_pos h]
            exact hneg
          · simp only [videoPacketsRead, packetsBeforeFailure] at hnil ⊢
            rw [List.filter_cons_of_neg (by simpa using h)]
            exact hnil

theorem videoPacketsRead_found (videoIndex : Int) (others : List AVPacketWrapper)
    (p : AVPacketWrapper) (rest : List ReadResult)
    (ho : ∀ q ∈ others, q.stream_index ≠ videoIndex) (hp : p.stream_index = videoIndex) :
    videoPacketsRead videoIndex (others.map ReadResult.ok ++ ReadResult.ok p :: rest)
      = p :: videoPacketsRead videoIndex rest := by
  induction others with
  | nil =>
    simp only [List.map_nil, List.nil_append, videoPacketsRead, packetsBeforeFailure]
    rw [List.filter_cons_of_pos (by simpa using hp)]
  | cons q qs ih =>
    have hq := ho q (List.mem_cons_self _ _)
    have ih2 := ih (fun x hx => ho x (List.mem_cons_of_mem _ hx))
    simp only [List.map_cons, List.cons_append, videoPacketsRead, packetsBeforeFailure] at ih2 ⊢
    rw [List.filter_cons_of_neg (by simpa using hq)]
    exact ih2

theorem goToNextVideoPacket_found (self : fileSourceFFmpegFile) (others : List AVPacketWrapper)
    (p : AVPacketWrapper) (rest : List ReadResult)
    (hdec : self.fmt_ctx.pending = others.map ReadResult.ok ++ ReadResult.ok p :: rest)
    (ho : ∀ q ∈ others, q.stream_index ≠ self.video_stream.index)
    (hp : p.stream_index = self.video_stream.index) :
    goToNextVideoPacket self =
      (true, { self with pkt := { p with valid := true },
                         fmt_ctx := { self.fmt_ctx with pending := rest } }) := by
  unfold goToNextVideoPacket
  rw [hdec, goToNextVideoPacketLoop_found _ others p rest ho hp]
  simp

theorem goToNextVideoPacket_exhausted (self : fileSourceFFmpegFile)
    (h : self.fmt_ctx.pending = []) :
    goToNextVideoPacket self =
      (false, { self with pkt := (if self.pkt.valid then self.pkt.unref_packet else self.pkt),
                          endOfFile := true }) := by
  have hctx : ({ self.fmt_ctx with pending := [] } : AVFormatContextWrapper) = self.fmt_ctx := by
    rw [← h]
  unfold goToNextVideoPacket
  rw [h]
  simp [goToNextVideoPacketLoop, eofCode, hctx]

/-! ## Lemmas: seek index builder -/

theorem keyFrameEntriesFrom_cons (k : Nat) (p : AVPacketWrapper) (vs : List AVPacketWrapper) :
    keyFrameEntriesFrom k (p :: vs) =
      (if p.flag_keyframe then [pictureIdx.mk (k : Int) p.pts] else [])
        ++ keyFrameEntriesFrom (k + 1) vs := by
  unfold keyFrameEntriesFrom
  cases h : p.flag_keyframe <;> simp [List.enumFrom_cons, List.filter_cons, h]

theorem scanBitstreamLoop_spec :
    ∀ (fuel : Nat) (self : fileSourceFFmpegFile) (k : Nat),
    self.fmt_ctx.pending.length < fuel → self.nrFrames = (k : Int) →
    k + (videoPacketsRead self.video_stream.index self.fmt_ctx.pending).length < 2147483648 →
    ∃ s', scanBitstreamLoop fuel self = some s'
      ∧ s'.nrFrames
          = ((k + (videoPacketsRead self.video_stream.index self.fmt_ctx.pending).length : Nat) : Int)
      ∧ s'.keyFrameList = self.keyFrameList
          ++ keyFrameEntriesFrom k (videoPacketsRead self.video_stream.index self.fmt_ctx.pending)
      ∧ s'.endOfFile = true := by
  intro fuel
  induction fuel with
  | zero => intro self k h; exact absurd h (Nat.not_lt_zero _)
  | succ fuel ih =>
    intro self k hlen hk hbound
    rcases goToNextVideoPacketLoop_cases self.video_stream.index self.fmt_ctx.pending self.pkt with
      ⟨others, p, rest, hdec, ho, hp, _⟩ | ⟨hneg, hnil⟩
    · have hgo := goToNextVideoPacket_found self others p rest hdec ho hp
      have hrest : rest.length < fuel := by
        rw [hdec] at hlen
        simp only [List.length_append, List.length_map, List.length_cons] at hlen
        omega
      have hv := videoPacketsRead_found _ others p rest ho hp
      rw [← hdec] at hv
      rw [hv, List.length_cons] at hbound
      have hinc : toInt32 (self.nrFrames + 1) = ((k + 1 : Nat) : Int) := by
        rw [hk, toInt32_of_fits _ (by unfold fitsInt32; omega)]
        push_cast
        ring
      rw [hv, keyFrameEntriesFrom_cons]
      simp only [scanBitstreamLoop, hgo, if_true]
      cases hkey : p.flag_keyframe
      · obtain ⟨s', h1, h2, h3, h4⟩ := ih
          { self with pkt := { p with valid := true },
                      fmt_ctx := { self.fmt_ctx with pending := rest },
                      nrFrames := toInt32 (self.nrFrames + 1) } (k + 1) hrest hinc
          (by simp only; omega)
        refine ⟨s', ?_, ?_, ?_, h4⟩
        · simpa [hkey] using h1
        · rw [h2]; simp only [List.length_cons]; congr 1; omega
        · rw [h3]; simp
      · obtain ⟨s', h1, h2, h3, h4⟩ := ih
          { self with pkt := { p with valid := true },
                      fmt_ctx := { self.fmt_ctx with pending := rest },
                      keyFrameList := self.keyFrameList ++ [pictureIdx.mk self.nrFrames p.pts],
                      nrFrames := toInt32 (self.nrFrames + 1) } (k + 1) hrest hinc
          (by simp only; omega)
        refine ⟨s', ?_, ?_, ?_, h4⟩
        · simpa [hkey] using h1
        · rw [h2]; simp only [List.length_cons]; congr 1; omega
        · rw [h3]; simp [hk]
    · have hgo : (goToNextVideoPacket self).1 = false
          ∧ (goToNextVideoPacket self).2.nrFrames = self.nrFrames
          ∧ (goToNextVideoPacket self).2.keyFrameList = self.keyFrameList
          ∧ (goToNextVideoPacket self).2.endOfFile = true := by
        unfold goToNextVideoPacket
        simp only [hneg, if_true, and_self]
      refine ⟨(goToNextVideoPacket self).2, ?_, ?_, ?_, hgo.2.2.2⟩
      · simp only [scanBitstreamLoop, hgo.1]
        simp
      · rw [hgo.2.1, hnil, hk]; simp
      · rw [hgo.2.2.1, hnil]; simp [keyFrameEntriesFrom]

/-! ## Lemmas: byte arrays and NAL framing -/

theorem mid_append (pre x post : QByteArray) (pos len : Int)
    (hpos : pos = (pre.length : Int)) (hlen : len = (x.length : Int)) :
    QByteArray.mid (pre ++ (x ++ post)) pos len = x := by
  subst hpos hlen
  unfold QByteArray.mid QByteArray.size
  simp only [List.length_append, Nat.cast_add]
  rw [if_neg (by omega), if_neg (by omega), if_neg (by omega)]
  simp

theorem byteAt_four (b0 b1 b2 b3 : Byte) :
    QByteArray.byteAt [b0, b1, b2, b3] 3 = some b3
    ∧ QByteArray.byteAt [b0, b1, b2, b3] 2 = some b2
    ∧ QByteArray.byteAt [b0, b1, b2, b3] 1 = some b1
    ∧ QByteArray.byteAt [b0, b1, b2, b3] 0 = some b0 := by
  refine ⟨?_, ?_, ?_, ?_⟩ <;> simp [QByteArray.byteAt, QByteArray.size]

theorem decode_len_be32 (n : Nat) (h : n < 4294967296) :
    toUInt32 (toUInt32 (toUInt32 (toUInt32 (ucharVal (Fin.ofNat n))
        + ucharVal (Fin.ofNat (n / 256)) * 256)
        + ucharVal (Fin.ofNat (n / 65536)) * 65536)
        + ucharVal (Fin.ofNat (n / 16777216)) * 16777216) = (n : Int) := by
  unfold toUInt32 ucharVal
  simp only [Fin.ofNat, Nat.reduceAdd]
  push_cast
  omega

theorem len_be32_length (n : Nat) : (len_be32 n).length = 4 := rfl

/-- One `getNextNALUnit` step on a loaded payload whose cursor stands at a
framed block: the block comes back whole, the cursor moves behind it, and the
payload is dropped when nothing follows. -/
theorem getNextNALUnit_slice_framed (self : fileSourceFFmpegFile) (pre b post : QByteArray)
    (hdata : self.currentPacketData = pre ++ (len_be32 b.length ++ (b ++ post)))
    (hpos : self.posInData = (pre.length : Int))
    (hsize : self.currentPacketData.length < 2147483648) :
    getNextNALUnit_slice self =
      some { nal := b, pts := some (toUInt64 self.pkt.pts),
             session :=
               if post = [] then
                 { self with posInData := (pre.length : Int) + 4 + (b.length : Int),
                             currentPacketData := [] }
               else { self with posInData := (pre.length : Int) + 4 + (b.length : Int) } } := by
  have hlen : pre.length + (4 + (b.length + post.length)) < 2147483648 := by
    rw [hdata] at hsize
    simpa [len_be32_length] using hsize
  have hsizePart : QByteArray.mid self.currentPacketData self.posInData 4
      = len_be32 b.length := by
    rw [hdata]
    exact mid_append pre (len_be32 b.length) (b ++ post) _ _ hpos rfl
  have hdec := decode_len_be32 b.length (by omega)
  have hfour := byteAt_four (Fin.ofNat (b.length / 16777216)) (Fin.ofNat (b.length / 65536))
    (Fin.ofNat (b.length / 256)) (Fin.ofNat b.length)
  have hp4 : toInt32 (self.posInData + 4) = ((pre ++ len_be32 b.length).length : Int) := by
    rw [hpos, List.length_append, len_be32_length]
    push_cast
    exact toInt32_of_fits _ (by unfold fitsInt32; omega)
  have hsz : toInt32 (b.length : Int) = (b.length : Int) :=
    toInt32_of_fits _ (by unfold fitsInt32; omega)
  have hret : QByteArray.mid self.currentPacketData (toInt32 (self.posInData + 4))
      (toInt32 (b.length : Int)) = b := by
    rw [hdata]
    have := mid_append (pre ++ len_be32 b.length) b post _ _ hp4 hsz
    simpa [List.append_assoc] using this
  have hnew : toInt32 (toUInt32 (toUInt32 self.posInData + toUInt32 (4 + (b.length : Int))))
      = (pre.length : Int) + 4 + (b.length : Int) := by
    rw [hpos]
    unfold toInt32 toUInt32
    omega
  have hcmp : ((pre.length : Int) + 4 + (b.length : Int) ≥ QByteArray.size self.currentPacketData)
      ↔ post = [] := by
    rw [hdata]
    unfold QByteArray.size
    simp only [List.length_append, len_be32_length]
    push_cast
    constructor
    · intro h
      have : post.length = 0 := by omega
      exact List.length_eq_zero.mp this
    · intro h
      subst h
      simp only [List.length_nil, Nat.cast_zero]
      omega
  unfold getNextNALUnit_slice
  simp only [hsizePart]
  unfold len_be32 at hfour ⊢
  simp only [hfour.1, hfour.2.1, hfour.2.2.1, hfour.2.2.2, hdec, hret, hnew]
  by_cases hpost : post = []
  · rw [if_pos (hcmp.mpr hpost), if_pos hpost]
  · rw [if_neg (fun h => hpost (hcmp.mp h)), if_neg hpost]

theorem nalFraming_ne_nil (b : QByteArray) (rest : List QByteArray) :
    nalFraming (b :: rest) ≠ [] := by
  simp [nalFraming, len_be32]

theorem getNextNALUnit_loaded (self : fileSourceFFmpegFile) (h : self.currentPacketData ≠ []) :
    getNextNALUnit self = getNextNALUnit_slice self := by
  unfold getNextNALUnit
  rw [if_neg (by simpa [List.isEmpty_iff] using h)]

/-- On a loaded payload whose cursor stands at the framed blocks `B1..Bn`
(`n ≥ 1`), `n` calls return the blocks in order, each with the PTS of the held
packet, and leave the payload consumed. -/
theorem getNextNALUnits_loaded :
    ∀ (blocks : List QByteArray) (self : fileSourceFFmpegFile) (pre : QByteArray),
    blocks ≠ [] →
    self.currentPacketData = pre ++ nalFraming blocks →
    self.posInData = (pre.length : Int) →
    self.currentPacketData.length < 2147483648 →
    getNextNALUnits blocks.length self =
      some (blocks.map (fun b => (b, some (toUInt64 self.pkt.pts))),
            { self with posInData := (self.currentPacketData.length : Int),
                        currentPacketData := [] }) := by
  intro blocks
  induction blocks with
  | nil => intro self pre h; exact absurd rfl h
  | cons b rest ih =>
    intro self pre _ hdata hpos hsize
    have hne : self.currentPacketData ≠ [] := by
      rw [hdata]
      simp [nalFraming, len_be32]
    have hdata2 : self.currentPacketData = pre ++ (len_be32 b.length ++ (b ++ nalFraming rest)) := by
      rw [hdata]; rfl
    have hstep := getNextNALUnit_slice_framed self pre b (nalFraming rest) hdata2 hpos hsize
    have htotal : (self.currentPacketData.length : Int)
        = (pre.length : Int) + 4 + (b.length : Int) + ((nalFraming rest).length : Int) := by
      rw [hdata2]
      simp only [List.length_append, len_be32_length]
      push_cast
      ring
    cases rest with
    | nil =>
      simp only [nalFraming, if_true] at hstep
      simp only [List.length_cons, List.length_nil, Nat.zero_add, getNextNALUnits,
        getNextNALUnit_loaded self hne, hstep, List.map_cons, List.map_nil]
      simp only [nalFraming, List.length_nil, Nat.cast_zero, add_zero] at htotal
      rw [htotal]
    | cons c rest2 =>
      rw [if_neg (nalFraming_ne_nil c rest2)] at hstep
      have hih := ih { self with posInData := (pre.length : Int) + 4 + (b.length : Int) }
        (pre ++ (len_be32 b.length ++ b)) (List.cons_ne_nil _ _)
        (by simp only [hdata2, List.append_assoc])
        (by simp only [List.length_append, len_be32_length]; push_cast; ring)
        hsize
      rw [List.length_cons, getNextNALUnits, getNextNALUnit_loaded self hne, hstep]
      simp only [hih, List.map_cons]


/-! ## Lemmas: extradata parser -/

theorem byteAt_append (pre post : QByteArray) (x : Byte) (pos : Int)
    (hpos : pos = (pre.length : Int)) :
    QByteArray.byteAt (pre ++ x :: post) pos = some x := by
  subst hpos
  unfold QByteArray.byteAt QByteArray.size
  rw [if_pos (by simp only [List.length_append, List.length_cons]; push_cast; omega)]
  rw [Int.toNat_ofNat, List.get?_eq_getElem?, List.getElem?_append_right (Nat.le_refl _),
    Nat.sub_self]
  exact List.getElem?_cons_zero

/-- The inner loop of `getParameterSets` on a run of well-formed NAL units that
lies at the cursor: it appends their payloads and stops behind them. -/
theorem parameterSetNalLoop_wellFormed (data : QByteArray) (hsize : data.length < 2147483648) :
    ∀ (nals : List ParameterSetNal) (pre post : QByteArray) (acc : List QByteArray),
    data = pre ++ (encodeNals nals ++ post) →
    (∀ n ∈ nals, n.wellFormed) →
    parameterSetNalLoop data nals.length (pre.length : Int) acc =
      some (((pre ++ encodeNals nals).length : Int), acc ++ nals.map (fun n => n.payload)) := by
  intro nals
  induction nals with
  | nil =>
    intro pre post acc _ _
    simp [parameterSetNalLoop, encodeNals]
  | cons n rest ih =>
    intro pre post acc hdata hwf
    have hn : n.payload.length = n.len0.val * 128 + n.len1.val := hwf n (List.mem_cons_self _ _)
    have hrest : ∀ m ∈ rest, m.wellFormed := fun m hm => hwf m (List.mem_cons_of_mem _ hm)
    have hlen : pre.length + (2 + (n.payload.length + ((encodeNals rest).length + post.length)))
        < 2147483648 := by
      rw [hdata] at hsize
      simp only [encodeNals, List.length_append, List.length_cons, List.length_nil] at hsize
      omega
    have h0 : QByteArray.byteAt data (pre.length : Int) = some n.len0 := by
      rw [hdata]
      exact byteAt_append pre _ n.len0 _ rfl
    have hp1 : toInt32 ((pre.length : Int) + 1) = ((pre ++ [n.len0]).length : Int) := by
      rw [toInt32_of_fits _ (by unfold fitsInt32; omega)]
      simp
    have h1 : QByteArray.byteAt data (toInt32 ((pre.length : Int) + 1)) = some n.len1 := by
      rw [hdata]
      have := byteAt_append (pre ++ [n.len0]) (n.payload ++ (encodeNals rest ++ post)) n.len1 _ hp1
      simpa only [encodeNals, List.append_assoc, List.cons_append, List.nil_append] using this
    have hp2 : toInt32 (toInt32 ((pre.length : Int) + 1) + 1)
        = ((pre ++ [n.len0, n.len1]).length : Int) := by
      rw [toInt32_of_fits ((pre.length : Int) + 1) (by unfold fitsInt32; omega),
        toInt32_of_fits _ (by unfold fitsInt32; omega)]
      simp only [List.length_append, List.length_cons, List.length_nil]
      push_cast
      ring
    have hshift : shift7 n.len0 n.len1 = (n.payload.length : Int) := by
      unfold shift7 ucharVal
      rw [hn]
      push_cast
      ring
    have hraw : QByteArray.mid data (toInt32 (toInt32 ((pre.length : Int) + 1) + 1))
        (shift7 n.len0 n.len1) = n.payload := by
      rw [hdata]
      have := mid_append (pre ++ [n.len0, n.len1]) n.payload (encodeNals rest ++ post) _ _ hp2 hshift
      simpa only [encodeNals, List.append_assoc, List.cons_append, List.nil_append] using this
    have hp3 : toInt32 (toInt32 (toInt32 ((pre.length : Int) + 1) + 1) + shift7 n.len0 n.len1)
        = ((pre ++ ([n.len0, n.len1] ++ n.payload)).length : Int) := by
      rw [hp2, hshift, toInt32_of_fits _ (by
        unfold fitsInt32
        simp only [List.length_append, List.length_cons, List.length_nil]
        push_cast
        omega)]
      simp only [List.length_append, List.length_cons, List.length_nil]
      push_cast
      ring
    have hih := ih (pre ++ ([n.len0, n.len1] ++ n.payload)) post (acc ++ [n.payload])
      (by rw [hdata]; simp only [encodeNals, List.append_assoc, List.cons_append, List.nil_append])
      hrest
    rw [List.length_cons, parameterSetNalLoop]
    simp only [h0, h1]
    rw [hraw, hp3, hih]
    simp only [encodeNals, List.append_assoc, List.cons_append, List.nil_append, List.map_cons]
/-- The outer loop of `getParameterSets` on a run of well-formed arrays that
lies behind the cursor: it appends all their payloads and stops behind them. -/
theorem parameterSetArrayLoop_wellFormed (data : QByteArray) (hsize : data.length < 2147483648) :
    ∀ (arrays : List ParameterSetArray) (pre post : QByteArray) (acc : List QByteArray),
    data = pre ++ (encodeArrays arrays ++ post) →
    (∀ a ∈ arrays, a.wellFormed) →
    parameterSetArrayLoop data arrays.length (pre.length : Int) acc =
      some (((pre ++ encodeArrays arrays).length : Int), acc ++ parameterSetPayloads arrays) := by
  intro arrays
  induction arrays with
  | nil =>
    intro pre post acc _ _
    simp [parameterSetArrayLoop, encodeArrays, parameterSetPayloads]
  | cons a rest ih =>
    intro pre post acc hdata hwf
    have ha := hwf a (List.mem_cons_self _ _)
    have hrest : ∀ m ∈ rest, m.wellFormed := fun m hm => hwf m (List.mem_cons_of_mem _ hm)
    have hlen : pre.length + (3 + ((encodeNals a.nals).length
        + ((encodeArrays rest).length + post.length))) < 2147483648 := by
      rw [hdata] at hsize
      simp only [encodeArrays, List.length_append, List.length_cons, List.length_nil] at hsize
      omega
    have hp1 : toInt32 ((pre.length : Int) + 1) = ((pre ++ [a.arrayType]).length : Int) := by
      rw [toInt32_of_fits _ (by unfold fitsInt32; omega)]
      simp
    have h0 : QByteArray.byteAt data (toInt32 ((pre.length : Int) + 1)) = some a.count0 := by
      rw [hdata]
      have := byteAt_append (pre ++ [a.arrayType])
        (a.count1 :: (encodeNals a.nals ++ encodeArrays rest) ++ post) a.count0 _ hp1
      simpa only [encodeArrays, List.append_assoc, List.cons_append, List.nil_append] using this
    have hp2 : toInt32 (toInt32 ((pre.length : Int) + 1) + 1)
        = ((pre ++ [a.arrayType, a.count0]).length : Int) := by
      rw [toInt32_of_fits ((pre.length : Int) + 1) (by unfold fitsInt32; omega),
        toInt32_of_fits _ (by unfold fitsInt32; omega)]
      simp only [List.length_append, List.length_cons, List.length_nil]
      push_cast
      ring
    have h1 : QByteArray.byteAt data (toInt32 (toInt32 ((pre.length : Int) + 1) + 1))
        = some a.count1 := by
      rw [hdata]
      have := byteAt_append (pre ++ [a.arrayType, a.count0])
        ((encodeNals a.nals ++ encodeArrays rest) ++ post) a.count1 _ hp2
      simpa only [encodeArrays, List.append_assoc, List.cons_append, List.nil_append] using this
    have hp3 : toInt32 (toInt32 (toInt32 ((pre.length : Int) + 1) + 1) + 1)
        = ((pre ++ [a.arrayType, a.count0, a.count1]).length : Int) := by
      rw [hp2, toInt32_of_fits _ (by
        unfold fitsInt32
        simp only [List.length_append, List.length_cons, List.length_nil]
        push_cast
        omega)]
      simp only [List.length_append, List.length_cons, List.length_nil]
      push_cast
      ring
    have hcount : (shift7 a.count0 a.count1).toNat = a.nals.length := by
      unfold shift7 ucharVal
      rw [ha.1]
      omega
    have hinner := parameterSetNalLoop_wellFormed data hsize a.nals
      (pre ++ [a.arrayType, a.count0, a.count1]) (encodeArrays rest ++ post) acc
      (by rw [hdata]
          simp only [encodeArrays, List.append_assoc, List.cons_append, List.nil_append]) ha.2
    have hih := ih (pre ++ [a.arrayType, a.count0, a.count1] ++ encodeNals a.nals) post
      (acc ++ a.nals.map (fun n => n.payload))
      (by rw [hdata]
          simp only [encodeArrays, List.append_assoc, List.cons_append, List.nil_append]) hrest
    rw [List.length_cons, parameterSetArrayLoop]
    simp only [h0, h1]
    rw [hp3, hcount, hinner]
    simp only []
    rw [hih]
    simp only [encodeArrays, parameterSetPayloads, List.append_assoc, List.cons_append,
      List.nil_append]


/-! ## Lemmas: seeking and the end of the stream -/

theorem seekToPTS_true (seek_frame : AVFormatContextWrapper → Int → Int → Int × AVFormatContextWrapper)
    (self : fileSourceFFmpegFile) (pts : Int) (h : (seekToPTS seek_frame self pts).1 = true) :
    (seekToPTS seek_frame self pts).2 =
      { self with fmt_ctx := (seek_frame self.fmt_ctx self.video_stream.index pts).2,
                  endOfFile := false } := by
  unfold seekToPTS at h ⊢
  by_cases ho : self.isFileOpened = true
  · by_cases hr : (seek_frame self.fmt_ctx self.video_stream.index pts).1 = 0
    · simp [ho, hr]
    · simp [ho, hr] at h
  · simp [ho] at h

theorem seekToPTS_keeps_payload
    (seek_frame : AVFormatContextWrapper → Int → Int → Int × AVFormatContextWrapper)
    (self : fileSourceFFmpegFile) (pts : Int) :
    (seekToPTS seek_frame self pts).2.currentPacketData = self.currentPacketData
    ∧ (seekToPTS seek_frame self pts).2.posInData = self.posInData
    ∧ (seekToPTS seek_frame self pts).2.pkt = self.pkt := by
  unfold seekToPTS
  by_cases ho : self.isFileOpened = true
  · by_cases hr : (seek_frame self.fmt_ctx self.video_stream.index pts).1 = 0
    · simp [ho, hr]
    · simp [ho, hr]
  · simp [ho]


theorem goToNextVideoPacket_endOfFile (self : fileSourceFFmpegFile) (h : self.endOfFile = true) :
    (goToNextVideoPacket self).2.endOfFile = true := by
  unfold goToNextVideoPacket
  by_cases hr : (goToNextVideoPacketLoop self.video_stream.index self.fmt_ctx.pending self.pkt).1 < 0
  · simp [hr]
  · simp [hr, h]

theorem getNextNALUnit_slice_endOfFile (self : fileSourceFFmpegFile) (r : NALResult)
    (h : getNextNALUnit_slice self = some r) : r.session.endOfFile = self.endOfFile := by
  unfold getNextNALUnit_slice at h
  dsimp only at h
  split at h
  · simp only [Option.some.injEq] at h
    rw [← h]
    dsimp only
    split <;> rfl
  · exact absurd h (by simp)

theorem getNextNALUnit_endOfFile (self : fileSourceFFmpegFile) (r : NALResult)
    (hflag : self.endOfFile = true) (h : getNextNALUnit self = some r) :
    r.session.endOfFile = true := by
  have hgo := goToNextVideoPacket_endOfFile self hflag
  unfold getNextNALUnit at h
  dsimp only at h
  by_cases he : self.currentPacketData.isEmpty = true
  · rw [if_pos he] at h
    by_cases hr : (!(goToNextVideoPacket self).1) = true
    · rw [if_pos hr] at h
      simp only [Option.some.injEq] at h
      rw [← h]
      exact hgo
    · rw [if_neg hr] at h
      rw [getNextNALUnit_slice_endOfFile _ r h]
      exact hgo
  · rw [if_neg he] at h
    rw [getNextNALUnit_slice_endOfFile _ r h]
    exact hflag

/-! ## Lemmas: order of the seek index -/

theorem keyFrameEntriesFrom_bounds (vs : List AVPacketWrapper) :
    ∀ (k : Nat), ∀ e ∈ keyFrameEntriesFrom k vs,
      (k : Int) ≤ e.frame ∧ e.frame < ((k + vs.length : Nat) : Int) := by
  induction vs with
  | nil =>
    intro k e he
    simp [keyFrameEntriesFrom] at he
  | cons p rest ih =>
    intro k e he
    rw [keyFrameEntriesFrom_cons] at he
    rcases List.mem_append.mp he with h | h
    · by_cases hk : p.flag_keyframe = true
      · rw [if_pos hk] at h
        rw [List.mem_singleton] at h
        subst h
        simp only [List.length_cons]
        push_cast
        omega
      · rw [if_neg hk] at h
        exact absurd h (List.not_mem_nil _)
    · have := ih (k + 1) e h
      simp only [List.length_cons]
      push_cast at this ⊢
      omega

theorem keyFrameEntriesFrom_ascending (vs : List AVPacketWrapper) :
    ∀ (k : Nat), (keyFrameEntriesFrom k vs).Pairwise (fun a b => a.frame < b.frame) := by
  induction vs with
  | nil =>
    intro k
    simp [keyFrameEntriesFrom]
  | cons p rest ih =>
    intro k
    rw [keyFrameEntriesFrom_cons]
    by_cases hk : p.flag_keyframe = true
    · rw [if_pos hk, List.singleton_append, List.pairwise_cons]
      refine ⟨?_, ih (k + 1)⟩
      intro e he
      have := (keyFrameEntriesFrom_bounds rest (k + 1) e he).1
      push_cast at this
      simp only
      omega
    · rw [if_neg hk, List.nil_append]
      exact ih (k + 1)


/-! ## Lemmas: 64-bit arithmetic -/

theorem toInt64_of_fits (x : Int) (h : fitsInt64 x) : toInt64 x = x := by
  unfold fitsInt64 at h
  unfold toInt64
  omega

theorem tdiv_fitsInt64 (x n : Int) (hx : fitsInt64 x)
    (h : ¬ (x = -9223372036854775808 ∧ n = -1)) : fitsInt64 (x.tdiv n) := by
  unfold fitsInt64 at hx ⊢
  have habs : (x.tdiv n).natAbs = x.natAbs / n.natAbs := Int.natAbs_tdiv x n
  by_cases h1 : n = 1
  · subst h1
    rw [Int.tdiv_one]
    exact hx
  · by_cases h2 : n = -1
    · subst h2
      rw [Int.tdiv_neg, Int.tdiv_one]
      omega
    · by_cases h0 : n = 0
      · subst h0
        rw [Int.tdiv_zero]
        omega
      · have hn : 2 ≤ n.natAbs := by omega
        have hle : x.natAbs / n.natAbs ≤ x.natAbs / 2 :=
          Nat.div_le_div_left hn (by decide)
        omega


/-! ## Lemmas: opening a file -/

theorem findVideoStream_found (pre post : List AVStreamWrapper) (st video_stream : AVStreamWrapper)
    (hpre : ∀ q ∈ pre, q.codecType ≠ AVMediaType.video)
    (hst : st.codecType = AVMediaType.video) :
    findVideoStream (pre ++ st :: post) video_stream = { st with valid := true } := by
  induction pre with
  | nil => simp [findVideoStream, hst]
  | cons q qs ih =>
    have hq := hpre q (List.mem_cons_self _ _)
    simp only [List.cons_append, findVideoStream]
    rw [if_neg hq]
    exact ih (fun x hx => hpre x (List.mem_cons_of_mem _ hx))

theorem findVideoStream_none (l : List AVStreamWrapper) (video_stream : AVStreamWrapper)
    (h : ∀ st ∈ l, st.codecType ≠ AVMediaType.video) :
    findVideoStream l video_stream = video_stream := by
  induction l with
  | nil => rfl
  | cons q qs ih =>
    have hq := h q (List.mem_cons_self _ _)
    simp only [findVideoStream]
    rw [if_neg hq]
    exact ih (fun x hx => h x (List.mem_cons_of_mem _ hx))

theorem exists_first_video (l : List AVStreamWrapper)
    (h : ∃ st ∈ l, st.codecType = AVMediaType.video) :
    ∃ (pre : List AVStreamWrapper) (st : AVStreamWrapper) (post : List AVStreamWrapper),
      l = pre ++ st :: post ∧ (∀ q ∈ pre, q.codecType ≠ AVMediaType.video)
      ∧ st.codecType = AVMediaType.video := by
  induction l with
  | nil =>
    obtain ⟨st, hst, _⟩ := h
    exact absurd hst (List.not_mem_nil _)
  | cons q qs ih =>
    by_cases hq : q.codecType = AVMediaType.video
    · exact ⟨[], q, qs, rfl, fun x hx => absurd hx (List.not_mem_nil _), hq⟩
    · obtain ⟨st, hst, hv⟩ := h
      have hmem : st ∈ qs := by
        rcases List.mem_cons.mp hst with rfl | hm
        · exact absurd hv hq
        · exact hm
      obtain ⟨pre, st2, post, hdec, hpre, hst2⟩ := ih ⟨st, hmem, hv⟩
      refine ⟨q :: pre, st2, post, by rw [hdec]; rfl, ?_, hst2⟩
      intro x hx
      rcases List.mem_cons.mp hx with rfl | hm
      · exact hq
      · exact hpre x hm

/-- Opening a container whose stream table has a video stream: the first one is
selected and the session is opened on it, index and frame count untouched. -/
theorem openFileAndFindVideoStream_found (self : fileSourceFFmpegFile)
    (ctx : AVFormatContextWrapper) (pre post : List AVStreamWrapper) (st : AVStreamWrapper)
    (hdec : ctx.streams = pre ++ st :: post)
    (hpre : ∀ q ∈ pre, q.codecType ≠ AVMediaType.video)
    (hst : st.codecType = AVMediaType.video) :
    (openFileAndFindVideoStream true (some ctx) self).isFileOpened = true
    ∧ (openFileAndFindVideoStream true (some ctx) self).video_stream = { st with valid := true }
    ∧ (openFileAndFindVideoStream true (some ctx) self).fmt_ctx = ctx
    ∧ (openFileAndFindVideoStream true (some ctx) self).keyFrameList = self.keyFrameList
    ∧ (openFileAndFindVideoStream true (some ctx) self).frameRate =
        (if st.avg_frame_rate.den = 0 then FrameRate.value (-1)
         else FrameRate.quotient st.avg_frame_rate.num st.avg_frame_rate.den) := by
  have hf := findVideoStream_found pre post st self.video_stream hpre hst
  rw [← hdec] at hf
  unfold openFileAndFindVideoStream
  simp [hf]

/-- Opening fails, and the session is not opened, when the libraries do not
load, the input does not open, or the stream table of a session without a
selected stream has no video stream. -/
theorem openFileAndFindVideoStream_not_opened (librariesLoad : Bool)
    (open_input : Option AVFormatContextWrapper) (self : fileSourceFFmpegFile)
    (hfresh : self.video_stream.valid = false)
    (h : librariesLoad = false ∨ open_input = none
      ∨ ∃ ctx, open_input = some ctx ∧ ∀ st ∈ ctx.streams, st.codecType ≠ AVMediaType.video) :
    (openFileAndFindVideoStream librariesLoad open_input self).isFileOpened = false := by
  unfold openFileAndFindVideoStream
  rcases h with h | h | ⟨ctx, h, hno⟩
  · simp [h]
  · cases librariesLoad <;> simp [h]
  · have hf := findVideoStream_none ctx.streams self.video_stream hno
    cases librariesLoad <;> simp [h, hf, hfresh]

theorem seekToPTS_keeps_index
    (seek_frame : AVFormatContextWrapper → Int → Int → Int × AVFormatContextWrapper)
    (self : fileSourceFFmpegFile) (pts : Int) :
    (seekToPTS seek_frame self pts).2.nrFrames = self.nrFrames
    ∧ (seekToPTS seek_frame self pts).2.keyFrameList = self.keyFrameList
    ∧ (seekToPTS seek_frame self pts).2.isFileOpened = self.isFileOpened := by
  unfold seekToPTS
  by_cases ho : self.isFileOpened = true
  · by_cases hr : (seek_frame self.fmt_ctx self.video_stream.index pts).1 = 0
    · simp [ho, hr]
    · simp [ho, hr]
  · simp [ho]


theorem goToNextVideoPacket_keeps_opened (self : fileSourceFFmpegFile) :
    (goToNextVideoPacket self).2.isFileOpened = self.isFileOpened := by
  unfold goToNextVideoPacket
  by_cases hr : (goToNextVideoPacketLoop self.video_stream.index self.fmt_ctx.pending self.pkt).1 < 0
  · simp [hr]
  · simp [hr]

theorem scanBitstreamLoop_keeps_opened :
    ∀ (fuel : Nat) (self s' : fileSourceFFmpegFile),
    scanBitstreamLoop fuel self = some s' → s'.isFileOpened = self.isFileOpened := by
  intro fuel
  induction fuel with
  | zero =>
    intro self s' h
    simp [scanBitstreamLoop] at h
  | succ fuel ih =>
    intro self s' h
    have hk := goToNextVideoPacket_keeps_opened self
    simp only [scanBitstreamLoop] at h
    by_cases hr : (goToNextVideoPacket self).1 = true
    · rw [if_pos hr] at h
      have := ih _ s' h
      rw [this]
      by_cases hkey : (goToNextVideoPacket self).2.pkt.flag_keyframe = true
      · simp [hkey, hk]
      · simp [hkey, hk]
    · rw [if_neg hr] at h
      simp only [Option.some.injEq] at h
      rw [← h]
      exact hk

/-- A first open of a container with a video stream (no sibling, empty keyframe
list): `openFile` returns true, the session is opened, and its frame count and
seek index are those of the packets of the first video stream. -/
theorem openFile_scan (ctx : AVFormatContextWrapper)
    (seek_frame : AVFormatContextWrapper → Int → Int → Int × AVFormatContextWrapper)
    (self : fileSourceFFmpegFile) (pre post : List AVStreamWrapper) (st : AVStreamWrapper)
    (hfresh : self.keyFrameList = [])
    (hdec : ctx.streams = pre ++ st :: post)
    (hpre : ∀ q ∈ pre, q.codecType ≠ AVMediaType.video)
    (hst : st.codecType = AVMediaType.video)
    (hcount : (videoPacketsRead st.index ctx.pending).length < 2147483648) :
    ∃ a, openFile true true (some ctx) seek_frame none self = some (true, a)
      ∧ a.isFileOpened = true
      ∧ a.nrFrames = ((videoPacketsRead st.index ctx.pending).length : Int)
      ∧ a.keyFrameList = keyFrameEntries (videoPacketsRead st.index ctx.pending) := by
  obtain ⟨h1, h2, h3, h4, _⟩ := openFileAndFindVideoStream_found self ctx pre post st hdec hpre hst
  obtain ⟨s1, hs1⟩ : ∃ x, x = openFileAndFindVideoStream true (some ctx) self := ⟨_, rfl⟩
  rw [← hs1] at h1 h2 h3 h4
  obtain ⟨s3, hscan, hn, hk, _⟩ := scanBitstreamLoop_spec (s1.fmt_ctx.pending.length + 1)
    { s1 with fileChanged := false, nrFrames := 0 } 0 (Nat.lt_succ_self _) rfl
    (by simp only [h2, h3, Nat.zero_add]; exact hcount)
  have hopen := scanBitstreamLoop_keeps_opened _ _ s3 hscan
  simp only [h2, h3, h4, hfresh, List.nil_append, Nat.zero_add] at hn hk hopen
  have hkeep := seekToPTS_keeps_index seek_frame s3 0
  refine ⟨(seekToPTS seek_frame s3 0).2, ?_, ?_, ?_, ?_⟩
  · have hno : (!s1.isFileOpened) = false := by rw [h1]; rfl
    unfold openFile scanBitstream
    rw [← hs1]
    simp only [Bool.not_true, Bool.false_eq_true, if_false, hno]
    rw [hscan]
  · rw [hkeep.2.2, hopen, h1]
  · rw [hkeep.1, hn]
  · rw [hkeep.2.1, hk]
    rfl

/-- An open with an opened sibling: `openFile` returns true and the frame count
and the seek index are those of the sibling. -/
theorem openFile_sibling (ctx : AVFormatContextWrapper)
    (seek_frame : AVFormatContextWrapper → Int → Int → Int × AVFormatContextWrapper)
    (self other : fileSourceFFmpegFile) (hother : other.isFileOpened = true)
    (hvideo : ∃ st ∈ ctx.streams, st.codecType = AVMediaType.video) :
    ∃ b, openFile true true (some ctx) seek_frame (some other) self = some (true, b)
      ∧ b.nrFrames = other.nrFrames ∧ b.keyFrameList = other.keyFrameList := by
  obtain ⟨pre, st, post, hdec, hpre, hst⟩ := exists_first_video ctx.streams hvideo
  obtain ⟨h1, _⟩ := openFileAndFindVideoStream_found self ctx pre post st hdec hpre hst
  obtain ⟨s1, hs1⟩ : ∃ x, x = openFileAndFindVideoStream true (some ctx) self := ⟨_, rfl⟩
  rw [← hs1] at h1
  have hkeep := seekToPTS_keeps_index seek_frame
    { s1 with fileChanged := false, nrFrames := other.nrFrames,
              keyFrameList := other.keyFrameList } 0
  have hno : (!s1.isFileOpened) = false := by rw [h1]; rfl
  refine ⟨_, ?_, hkeep.1, hkeep.2.1⟩
  unfold openFile
  rw [← hs1]
  simp only [Bool.not_true, Bool.false_eq_true, if_false, hno, hother, if_true]


/-! ## Lemmas: malformed length prefixes -/

theorem mid_to_end (pre rest : QByteArray) (pos len : Int)
    (hpos : pos = (pre.length : Int)) (hlen : (rest.length : Int) < len) :
    QByteArray.mid (pre ++ rest) pos len = rest := by
  subst hpos
  unfold QByteArray.mid QByteArray.size
  simp only [List.length_append, Nat.cast_add]
  rw [if_neg (by omega), if_neg (by omega), if_pos (Or.inr (by omega))]
  simp

theorem decode_declaredLength (b0 b1 b2 b3 : Byte) :
    toUInt32 (toUInt32 (toUInt32 (toUInt32 (ucharVal b3) + ucharVal b2 * 256)
        + ucharVal b1 * 65536) + ucharVal b0 * 16777216) = declaredLength b0 b1 b2 b3 := by
  have h0 := b0.isLt
  have h1 := b1.isLt
  have h2 := b2.isLt
  have h3 := b3.isLt
  unfold toUInt32 ucharVal declaredLength
  omega


/-! ## Lemmas: the payload across iterator calls -/

theorem goToNextVideoPacket_keeps_payload (self : fileSourceFFmpegFile) :
    (goToNextVideoPacket self).2.currentPacketData = self.currentPacketData := by
  unfold goToNextVideoPacket
  by_cases hr : (goToNextVideoPacketLoop self.video_stream.index self.fmt_ctx.pending self.pkt).1 < 0
  · simp [hr]
  · simp [hr]


/-! ## Lemmas: the end of the stream on tracked sessions -/

/-- On a container whose reads all fail, `goToNextVideoPacket` returns false,
sets `endOfFile`, leaves the payload alone, and the reads left all fail. -/
theorem goToNextVideoPacket_everyReadFails (self : fileSourceFFmpegFile)
    (h : everyReadFails self.fmt_ctx.pending) :
    (goToNextVideoPacket self).1 = false
    ∧ (goToNextVideoPacket self).2.endOfFile = true
    ∧ (goToNextVideoPacket self).2.currentPacketData = self.currentPacketData
    ∧ everyReadFails (goToNextVideoPacket self).2.fmt_ctx.pending := by
  refine ⟨?_, ?_, goToNextVideoPacket_keeps_payload self, ?_⟩
  · cases hp : self.fmt_ctx.pending with
    | nil => rw [goToNextVideoPacket_exhausted self hp]
    | cons r rest =>
      obtain ⟨code, rfl⟩ := h r (by rw [hp]; exact List.mem_cons_self _ _)
      have hneg : -((code : Int) + 1) < 0 := by omega
      unfold goToNextVideoPacket
      simp only [hp, goToNextVideoPacketLoop, hneg, if_true]
  · cases hp : self.fmt_ctx.pending with
    | nil => rw [goToNextVideoPacket_exhausted self hp]
    | cons r rest =>
      obtain ⟨code, rfl⟩ := h r (by rw [hp]; exact List.mem_cons_self _ _)
      have hneg : -((code : Int) + 1) < 0 := by omega
      unfold goToNextVideoPacket
      simp only [hp, goToNextVideoPacketLoop, hneg, if_true]
  · cases hp : self.fmt_ctx.pending with
    | nil =>
      rw [goToNextVideoPacket_exhausted self hp]
      simp only [hp]
      intro r hr
      exact absurd hr (List.not_mem_nil _)
    | cons r rest =>
      obtain ⟨code, rfl⟩ := h r (by rw [hp]; exact List.mem_cons_self _ _)
      have hneg : -((code : Int) + 1) < 0 := by omega
      unfold goToNextVideoPacket
      simp only [hp, goToNextVideoPacketLoop, hneg, if_true]
      intro r hr
      exact h r (by rw [hp]; exact List.mem_cons_of_mem _ hr)

/-- One iterator call on a container whose reads all fail, with no payload
held, reports the end of the stream and leaves such a session, with
`endOfFile` set. -/
theorem IteratorCall_run_everyReadFails (c : IteratorCall) (t : TrackedSession)
    (hpend : everyReadFails t.session.fmt_ctx.pending)
    (hdata : t.session.currentPacketData = []) :
    ∃ t', c.run t = some (true, t') ∧ everyReadFails t'.session.fmt_ctx.pending
      ∧ t'.session.currentPacketData = [] ∧ t'.session.endOfFile = true := by
  obtain ⟨h1, h2, h3, h4⟩ := goToNextVideoPacket_everyReadFails t.session hpend
  rw [hdata] at h3
  cases c with
  | goToNextVideoPacket =>
    refine ⟨(TrackedSession.goToNextVideoPacket t).2, ?_, h4, h3, h2⟩
    simp only [IteratorCall.run, TrackedSession.goToNextVideoPacket, h1]
    rfl
  | getNextPacket =>
    refine ⟨(TrackedSession.getNextPacket t false).2, ?_, ?_, ?_, ?_⟩
    · simp only [IteratorCall.run, TrackedSession.getNextPacket, getNextPacket, h1]
      rfl
    · simp only [TrackedSession.getNextPacket, getNextPacket, h1]
      exact h4
    · simp only [TrackedSession.getNextPacket, getNextPacket, h1]
      exact h3
    · simp only [TrackedSession.getNextPacket, getNextPacket, h1]
      exact h2
  | getNextNALUnit =>
    have hnal : getNextNALUnit t.session = some
        { nal := [], pts := none,
          session := { (goToNextVideoPacket t.session).2 with posInFile := -1 } } := by
      unfold getNextNALUnit
      simp only [hdata, List.isEmpty_nil, if_true, h1, Bool.not_false]
    refine ⟨{ session := { (goToNextVideoPacket t.session).2 with posInFile := -1 },
              payloadReleased := false }, ?_, h4, h3, h2⟩
    simp only [IteratorCall.run, TrackedSession.getNextNALUnit, hdata, List.isEmpty_nil,
      Bool.not_true, Bool.false_and, Bool.false_eq_true, if_false, hnal]

theorem IteratorCall_run_endOfFile (c : IteratorCall) (t : TrackedSession)
    (r : Bool × TrackedSession) (hflag : t.session.endOfFile = true) (h : c.run t = some r) :
    r.2.session.endOfFile = true := by
  have hgo := goToNextVideoPacket_endOfFile t.session hflag
  cases c with
  | goToNextVideoPacket =>
    simp only [IteratorCall.run, TrackedSession.goToNextVideoPacket, Option.some.injEq] at h
    rw [← h]
    exact hgo
  | getNextPacket =>
    simp only [IteratorCall.run, TrackedSession.getNextPacket, getNextPacket,
      Option.some.injEq] at h
    rw [← h]
    by_cases hr : (goToNextVideoPacket t.session).1 = true
    · simp [hr, hgo]
    · simp [hr, hgo]
  | getNextNALUnit =>
    simp only [IteratorCall.run, TrackedSession.getNextNALUnit] at h
    split at h
    · exact absurd h (by simp)
    · rename_i r2 hr2
      simp only [Option.some.injEq] at h
      rw [← h]
      split at hr2
      · exact absurd hr2 (by simp)
      · split at hr2
        · exact absurd hr2 (by simp)
        · rename_i r3 hr3
          simp only [Option.some.injEq] at hr2
          rw [← hr2]
          exact getNextNALUnit_endOfFile t.session r3 hflag hr3

/-- Nothing but a seek clears `endOfFile`: once set, it stays set through every
sequence of iterator calls. -/
theorem runCalls_endOfFile (calls : List IteratorCall) :
    ∀ (t : TrackedSession) (rs : List Bool × TrackedSession),
    t.session.endOfFile = true → runCalls calls t = some rs → rs.2.session.endOfFile = true := by
  induction calls with
  | nil =>
    intro t rs hflag h
    simp only [runCalls, Option.some.injEq] at h
    rw [← h]
    exact hflag
  | cons c rest ih =>
    intro t rs hflag h
    simp only [runCalls] at h
    split at h
    · exact absurd h (by simp)
    · rename_i r hr
      split at h
      · exact absurd h (by simp)
      · rename_i rs2 hrs2
        simp only [Option.some.injEq] at h
        rw [← h]
        exact ih r.2 rs2 (IteratorCall_run_endOfFile c t r hflag hr) hrs2


/-! ## Claims -/

/-- C1 (the narrowing of the PTS). `getClosestSeekableDTSBefore` keeps the PTS
in an `int`: on the spec's index `[(0,0),(5,500),(10,1000)]` the targets 7, 0,
10 and -1 give (500,5), (0,0), (1000,10) and (0,0), but on the one-entry index
`[(0, 2^31)]` the PTS returned for target 0 is `-2^31`, not the stored `2^31`. -/
theorem getClosestSeekableDTSBefore_narrows_pts :
    getClosestSeekableDTSBefore { keyFrameList := [⟨0, 0⟩, ⟨5, 500⟩, ⟨10, 1000⟩] } 7
        = some (500, 5)
    ∧ getClosestSeekableDTSBefore { keyFrameList := [⟨0, 0⟩, ⟨5, 500⟩, ⟨10, 1000⟩] } 0
        = some (0, 0)
    ∧ getClosestSeekableDTSBefore { keyFrameList := [⟨0, 0⟩, ⟨5, 500⟩, ⟨10, 1000⟩] } 10
        = some (1000, 10)
    ∧ getClosestSeekableDTSBefore { keyFrameList := [⟨0, 0⟩, ⟨5, 500⟩, ⟨10, 1000⟩] } (-1)
        = some (0, 0)
    ∧ getClosestSeekableDTSBefore { keyFrameList := [⟨0, 2147483648⟩] } 0
        = some (-2147483648, 0)
    ∧ (lastEntryAtOrBefore [⟨0, 2147483648⟩] 0 ⟨0, 2147483648⟩).pts = 2147483648 := by
  decide

/-- C5. `goToNextVideoPacket` returns true exactly when the container hands out
a packet of the selected video stream before any failing read: it then holds the
first such packet, the packets of other streams before it are gone and the
container stands right behind it; when it returns false the end-of-stream flag
is set. -/
theorem goToNextVideoPacket_first_video_packet (self : fileSourceFFmpegFile) :
    (∀ (others : List AVPacketWrapper) (p : AVPacketWrapper) (rest : List ReadResult),
        self.fmt_ctx.pending = others.map ReadResult.ok ++ ReadResult.ok p :: rest →
        (∀ q ∈ others, q.stream_index ≠ self.video_stream.index) →
        p.stream_index = self.video_stream.index →
        goToNextVideoPacket self =
          (true, { self with pkt := { p with valid := true },
                             fmt_ctx := { self.fmt_ctx with pending := rest } }))
    ∧ ((goToNextVideoPacket self).1 = true →
        ∃ (others : List AVPacketWrapper) (p : AVPacketWrapper) (rest : List ReadResult),
          self.fmt_ctx.pending = others.map ReadResult.ok ++ ReadResult.ok p :: rest
          ∧ (∀ q ∈ others, q.stream_index ≠ self.video_stream.index)
          ∧ p.stream_index = self.video_stream.index
          ∧ (goToNextVideoPacket self).2.pkt = { p with valid := true }
          ∧ (goToNextVideoPacket self).2.pkt.stream_index = self.video_stream.index
          ∧ (goToNextVideoPacket self).2.fmt_ctx.pending = rest)
    ∧ ((goToNextVideoPacket self).1 = false →
        (goToNextVideoPacket self).2.endOfFile = true
        ∧ videoPacketsRead self.video_stream.index self.fmt_ctx.pending = []) := by
  refine ⟨fun others p rest hdec ho hp => goToNextVideoPacket_found self others p rest hdec ho hp,
    ?_, ?_⟩
  · intro htrue
    rcases goToNextVideoPacketLoop_cases self.video_stream.index self.fmt_ctx.pending self.pkt with
      ⟨others, p, rest, hdec, ho, hp, _⟩ | ⟨hneg, _⟩
    · have hgo := goToNextVideoPacket_found self others p rest hdec ho hp
      exact ⟨others, p, rest, hdec, ho, hp, by rw [hgo], by rw [hgo]; exact hp, by rw [hgo]⟩
    · exfalso
      unfold goToNextVideoPacket at htrue
      simp [hneg] at htrue
  · intro hfalse
    rcases goToNextVideoPacketLoop_cases self.video_stream.index self.fmt_ctx.pending self.pkt with
      ⟨others, p, rest, hdec, ho, hp, _⟩ | ⟨hneg, hnil⟩
    · rw [goToNextVideoPacket_found self others p rest hdec ho hp] at hfalse
      simp at hfalse
    · refine ⟨?_, hnil⟩
      unfold goToNextVideoPacket
      simp [hneg]

/-- C4. On a session with an empty keyframe list, and a container that gives
fewer than 2^31 packets of the selected video stream before its first failing
read (`nrFrames` is an `int`), `scanBitstream` comes to an end, with `nrFrames`
the number of those packets and `keyFrameList` the list, in read order, of
`(k, pts)` for those of them with the keyframe flag, `k` being the number of
video packets read before; packets of other streams count for neither. -/
theorem scanBitstream_result (self : fileSourceFFmpegFile) (h : self.keyFrameList = [])
    (hcount : (videoPacketsRead self.video_stream.index self.fmt_ctx.pending).length
      < 2147483648) :
    ∃ s', scanBitstream self = some s'
      ∧ s'.nrFrames
          = ((videoPacketsRead self.video_stream.index self.fmt_ctx.pending).length : Int)
      ∧ s'.keyFrameList
          = keyFrameEntries (videoPacketsRead self.video_stream.index self.fmt_ctx.pending) := by
  obtain ⟨s', h1, h2, h3, _⟩ := scanBitstreamLoop_spec (self.fmt_ctx.pending.length + 1)
    { self with nrFrames := 0 } 0 (Nat.lt_succ_self _) rfl
    (by simp only [Nat.zero_add]; exact hcount)
  refine ⟨s', h1, ?_, ?_⟩
  · rw [h2]; simp
  · rw [h3]; simp [h, keyFrameEntries]

/-- C2. NAL framing round trip: when no payload is loaded, the next packet of
the video stream carries the concatenation of `len_be32(Bi) ++ Bi` for the
blocks `B1..Bn` (`n ≥ 1`; the payload of a packet holds fewer than 2^31 bytes,
and so does each block) and the container has no further packet, `n` successive
`getNextNALUnit` calls return `B1, ..., Bn` in order, each with the PTS of that
packet, and the call after them reports the end of the stream: an empty array,
no PTS, `endOfFile` set and `posInFile` -1. -/
theorem getNextNALUnit_framing_round_trip (self : fileSourceFFmpegFile)
    (others : List AVPacketWrapper) (p : AVPacketWrapper) (blocks : List QByteArray)
    (hne : blocks ≠ [])
    (hdata : p.data = nalFraming blocks)
    (hsize : p.data.length < 2147483648)
    (hp : p.stream_index = self.video_stream.index)
    (ho : ∀ q ∈ others, q.stream_index ≠ self.video_stream.index)
    (hpend : self.fmt_ctx.pending = others.map ReadResult.ok ++ [ReadResult.ok p])
    (hempty : self.currentPacketData = []) :
    ∃ s' s'', getNextNALUnits blocks.length self
          = some (blocks.map (fun b => (b, some (toUInt64 p.pts))), s')
      ∧ getNextNALUnit s' = some { nal := [], pts := none, session := s'' }
      ∧ s''.endOfFile = true ∧ s''.posInFile = -1 := by
  have hgo := goToNextVideoPacket_found self others p [] hpend ho hp
  obtain ⟨b, rest, rfl⟩ := List.exists_cons_of_ne_nil hne
  obtain ⟨loaded, hl⟩ : ∃ x : fileSourceFFmpegFile, x =
      { self with pkt := { p with valid := true },
                  fmt_ctx := { self.fmt_ctx with pending := [] },
                  currentPacketData := p.data, posInData := 0 } := ⟨_, rfl⟩
  have hl_data : loaded.currentPacketData = p.data := by rw [hl]
  have hl_pos : loaded.posInData = 0 := by rw [hl]
  have hl_pts : loaded.pkt.pts = p.pts := by rw [hl]
  have hl_ne : loaded.currentPacketData ≠ [] := by
    rw [hl_data, hdata]; exact nalFraming_ne_nil b rest
  -- the first call loads the packet and goes on as on a loaded payload
  have hfirst : getNextNALUnit self = getNextNALUnit loaded := by
    rw [getNextNALUnit_loaded loaded hl_ne, hl]
    unfold getNextNALUnit
    rw [if_pos (by simp [hempty]), hgo]
    simp
  have hloaded := getNextNALUnits_loaded (b :: rest) loaded []
    (List.cons_ne_nil _ _) (by rw [hl_data, hdata]; rfl) (by rw [hl_pos]; rfl)
    (by rw [hl_data]; exact hsize)
  rw [List.length_cons, getNextNALUnits, ← hfirst, hl_pts] at hloaded
  obtain ⟨done, hd⟩ : ∃ x : fileSourceFFmpegFile, x =
      { loaded with posInData := (loaded.currentPacketData.length : Int),
                    currentPacketData := [] } := ⟨_, rfl⟩
  rw [← hd] at hloaded
  have hd_data : done.currentPacketData = [] := by rw [hd]
  have hd_pend : done.fmt_ctx.pending = [] := by rw [hd, hl]
  refine ⟨done,
    { done with pkt := (if done.pkt.valid then done.pkt.unref_packet else done.pkt),
                endOfFile := true, posInFile := -1 }, ?_, ?_, rfl, rfl⟩
  · rw [List.length_cons, getNextNALUnits]
    exact hloaded
  · unfold getNextNALUnit
    rw [if_pos (by simp [hd_data]), goToNextVideoPacket_exhausted _ hd_pend]
    simp only [Bool.not_false, if_true]

/-- C3. Extradata parsing: when the extradata (fewer than 2^31 bytes, as in
every `QByteArray`) is a 22-byte head whose byte 0 is 1, then the array count
`n ≤ 127` at offset 22, then `n` well-formed arrays (a type byte, the two count
bytes read as `(b0 << 7) + b1`, and per NAL unit two length bytes read the same
way and that many payload bytes), then whatever follows, `getParameterSets`
returns the payloads of all NAL units, in array order and then in per-array
order, byte for byte, and nothing else. -/
theorem getParameterSets_well_formed_record (self : fileSourceFFmpegFile)
    (head : QByteArray) (arrays : List ParameterSetArray) (trailing : QByteArray)
    (hextra : getExtradata self
      = head ++ (Fin.ofNat arrays.length :: (encodeArrays arrays ++ trailing)))
    (hhead : head.length = 22) (hversion : head.head? = some 1)
    (hcount : arrays.length ≤ 127)
    (hwf : ∀ a ∈ arrays, a.wellFormed)
    (hsize : (getExtradata self).length < 2147483648) :
    getParameterSets self = some (parameterSetPayloads arrays) := by
  obtain ⟨v, tail, rfl⟩ : ∃ v tail, head = v :: tail := by
    cases head with
    | nil => simp at hhead
    | cons v tail => exact ⟨v, tail, rfl⟩
  have hv : v = 1 := by simpa using hversion
  subst hv
  have h0 : QByteArray.byteAt (getExtradata self) 0 = some 1 := by
    rw [hextra]
    exact byteAt_append [] _ 1 0 rfl
  have h22 : QByteArray.byteAt (getExtradata self) 22
      = some (Fin.ofNat arrays.length) := by
    rw [hextra]
    exact byteAt_append _ _ _ 22 (by rw [hhead]; rfl)
  have hn : (charVal (Fin.ofNat arrays.length : Byte)).toNat = arrays.length := by
    unfold charVal
    simp only [Fin.ofNat, Nat.reduceAdd]
    have : arrays.length % 256 = arrays.length := Nat.mod_eq_of_lt (by omega)
    rw [this, if_pos (by omega)]
    simp
  have hloop := parameterSetArrayLoop_wellFormed (getExtradata self) hsize arrays
    (1 :: tail ++ [Fin.ofNat arrays.length]) trailing []
    (by rw [hextra]; simp only [List.append_assoc, List.cons_append, List.nil_append]) hwf
  have h23 : (((1 : Byte) :: tail ++ [Fin.ofNat arrays.length]).length : Int) = 23 := by
    simp only [List.length_append, List.length_cons, List.length_nil] at hhead ⊢
    omega
  rw [h23] at hloop
  unfold getParameterSets
  simp only [h0, h22, hn, hloop]
  have : charVal (1 : Byte) = 1 := by decide
  simp [this]


/-- C9 (empty extradata). With no video stream selected, with no codec context,
or with a codec context whose extradata is empty, `getExtradata` returns the
empty array, and `getParameterSets` then reads `extradata.at(0)` of that empty
array: an out-of-range access, not the empty list. -/
theorem getParameterSets_empty_extradata_out_of_range :
    getExtradata {} = []
    ∧ getParameterSets {} = none
    ∧ getExtradata { video_stream := { valid := true } } = []
    ∧ getParameterSets { video_stream := { valid := true } } = none
    ∧ getExtradata { video_stream := { valid := true, codec := { valid := true } } } = []
    ∧ getParameterSets { video_stream := { valid := true, codec := { valid := true } } } = none
    ∧ QByteArray.byteAt [] 0 = none := by
  decide

/-- C10 (index without a start entry). Scanning a container whose only video
packet is no keyframe leaves the seek index empty (with `nrFrames` 1), and so
does scanning a container without packets; on the empty index
`getClosestSeekableDTSBefore` reads `keyFrameList[0]`, which does not exist. -/
theorem scanBitstream_index_can_be_empty :
    (scanBitstream (openedSession [ReadResult.ok (videoPacket 0 false [])])).map
        (fun s => (s.nrFrames, s.keyFrameList)) = some (1, [])
    ∧ (scanBitstream (openedSession [])).map
        (fun s => (s.nrFrames, s.keyFrameList)) = some (0, [])
    ∧ (scanBitstream (openedSession [ReadResult.ok (videoPacket 0 false []),
          ReadResult.ok (videoPacket 10 true [])])).map
        (fun s => (s.nrFrames, s.keyFrameList)) = some (2, [⟨1, 10⟩])
    ∧ ((scanBitstream (openedSession [ReadResult.ok (videoPacket 0 false [])])).bind
        (fun s => getClosestSeekableDTSBefore s 0)) = none := by
  decide

/-- C7. Effect of `seekToPTS` on the session: when the file is opened and the
container seek returns 0, `seekToPTS` returns true and clears `endOfFile`,
whatever it was; when the container seek returns something else, `seekToPTS`
returns false and every member of the session keeps its value, `endOfFile`
included (the demuxer behind `fmt_ctx` is as the failed seek left it); when no
file is opened, `seekToPTS` returns false, the session is unchanged and the
result does not depend on the container seek, which is not called. -/
theorem seekToPTS_effect
    (seek_frame : AVFormatContextWrapper → Int → Int → Int × AVFormatContextWrapper)
    (self : fileSourceFFmpegFile) (pts : Int) :
    (self.isFileOpened = true →
      (seek_frame self.fmt_ctx self.video_stream.index pts).1 = 0 →
      seekToPTS seek_frame self pts =
        (true, { self with fmt_ctx := (seek_frame self.fmt_ctx self.video_stream.index pts).2,
                           endOfFile := false }))
    ∧ (self.isFileOpened = true →
      (seek_frame self.fmt_ctx self.video_stream.index pts).1 ≠ 0 →
      seekToPTS seek_frame self pts =
        (false, { self with fmt_ctx := (seek_frame self.fmt_ctx self.video_stream.index pts).2 })
      ∧ (seekToPTS seek_frame self pts).2.endOfFile = self.endOfFile)
    ∧ (self.isFileOpened = false →
      ∀ other : AVFormatContextWrapper → Int → Int → Int × AVFormatContextWrapper,
        seekToPTS other self pts = (false, self)) := by
  refine ⟨?_, ?_, ?_⟩
  · intro ho hr
    unfold seekToPTS
    simp [ho, hr]
  · intro ho hr
    unfold seekToPTS
    simp [ho, hr]
  · intro ho other
    unfold seekToPTS
    simp [ho]

/-- C7, at a session at the end of its stream: a seek that succeeds clears
`endOfFile`, a seek that fails leaves the session as it is, and so does any
seek on a session that is not opened. -/
theorem seekToPTS_effect_witness :
    seekToPTS seekToOneUnitPacket { openedSession [] with endOfFile := true } 0
      = (true, { openedSession [ReadResult.ok oneUnitPacket] with endOfFile := false })
    ∧ seekToPTS seekFails { openedSession [] with endOfFile := true } 0
      = (false, { openedSession [] with endOfFile := true })
    ∧ seekToPTS seekToOneUnitPacket { endOfFile := true } 0 = (false, { endOfFile := true }) :=
  ⟨(seekToPTS_effect seekToOneUnitPacket { openedSession [] with endOfFile := true } 0).1
      rfl rfl,
   ((seekToPTS_effect seekFails { openedSession [] with endOfFile := true } 0).2.1
      rfl (by decide)).1,
   (seekToPTS_effect seekFails { endOfFile := true } 0).2.2 rfl seekToOneUnitPacket⟩

/-- C6 (what the claim says fails). A session has returned the first of the two
NAL units `[1, 2]`, `[3]` of its packet; a seek then succeeds and leaves the
container in front of a packet with the unit `[9]`. The next `getNextNALUnit`
call returns `[3]`, the rest of the old payload, with the old PTS 40, and the
new packet is still unread. -/
theorem seekToPTS_keeps_partly_consumed_payload :
    (getNextNALUnit (openedSession [ReadResult.ok twoUnitPacket])).map (fun r => r.nal)
        = some [1, 2]
    ∧ ((getNextNALUnit (openedSession [ReadResult.ok twoUnitPacket])).bind (fun r1 =>
        (getNextNALUnit (seekToPTS seekToOneUnitPacket r1.session 0).2).map (fun r3 =>
          ((seekToPTS seekToOneUnitPacket r1.session 0).1, r3.nal, r3.pts,
            r3.session.fmt_ctx.pending))))
        = some (true, [3], some 40, [ReadResult.ok oneUnitPacket]) := by
  decide

/-- C6 (amended). `seekToPTS` leaves `currentPacketData`, `posInData` and the
held packet as they are. When no payload is held (`currentPacketData` empty)
and `seekToPTS` returns true, the next `getNextNALUnit` call pulls the first
video packet `p` the container gives after the seek and returns the first NAL
unit `b` of its payload `len_be32(b) ++ b ++ tail`, with the PTS of `p`. -/
theorem getNextNALUnit_after_seekToPTS
    (seek_frame : AVFormatContextWrapper → Int → Int → Int × AVFormatContextWrapper)
    (self : fileSourceFFmpegFile) (pts : Int)
    (others : List AVPacketWrapper) (p : AVPacketWrapper) (rest : List ReadResult)
    (b tail : QByteArray)
    (hseek : (seekToPTS seek_frame self pts).1 = true)
    (hempty : self.currentPacketData = [])
    (hpend : (seek_frame self.fmt_ctx self.video_stream.index pts).2.pending
      = others.map ReadResult.ok ++ ReadResult.ok p :: rest)
    (ho : ∀ q ∈ others, q.stream_index ≠ self.video_stream.index)
    (hp : p.stream_index = self.video_stream.index)
    (hdata : p.data = len_be32 b.length ++ (b ++ tail))
    (hsize : p.data.length < 2147483648) :
    (seekToPTS seek_frame self pts).2.currentPacketData = self.currentPacketData
    ∧ (seekToPTS seek_frame self pts).2.posInData = self.posInData
    ∧ ∃ s', getNextNALUnit (seekToPTS seek_frame self pts).2
          = some { nal := b, pts := some (toUInt64 p.pts), session := s' }
        ∧ s'.pkt = { p with valid := true }
        ∧ s'.fmt_ctx.pending = rest := by
  have hkeep := seekToPTS_keeps_payload seek_frame self pts
  refine ⟨hkeep.1, hkeep.2.1, ?_⟩
  obtain ⟨sought, hs⟩ : ∃ x, x = (seekToPTS seek_frame self pts).2 := ⟨_, rfl⟩
  have hs2 := seekToPTS_true seek_frame self pts hseek
  rw [← hs] at hs2 ⊢
  have hs_data : sought.currentPacketData = [] := by rw [hs2]; exact hempty
  have hs_pend : sought.fmt_ctx.pending = others.map ReadResult.ok ++ ReadResult.ok p :: rest := by
    rw [hs2]; exact hpend
  have hs_idx : sought.video_stream.index = self.video_stream.index := by rw [hs2]
  have hgo := goToNextVideoPacket_found sought others p rest hs_pend
    (by rw [hs_idx]; exact ho) (by rw [hs_idx]; exact hp)
  obtain ⟨loaded, hl⟩ : ∃ x : fileSourceFFmpegFile, x =
      { sought with pkt := { p with valid := true },
                    fmt_ctx := { sought.fmt_ctx with pending := rest },
                    currentPacketData := p.data, posInData := 0 } := ⟨_, rfl⟩
  have hfirst : getNextNALUnit sought = getNextNALUnit_slice loaded := by
    rw [hl]
    unfold getNextNALUnit
    rw [if_pos (by simp [hs_data]), hgo]
    simp
  have hslice := getNextNALUnit_slice_framed loaded [] b tail
    (by rw [hl]; simpa using hdata) (by rw [hl]; rfl) (by rw [hl]; exact hsize)
  rw [hfirst, hslice]
  have hl_pts : loaded.pkt.pts = p.pts := by rw [hl]
  have hl_pkt : loaded.pkt = { p with valid := true } := by rw [hl]
  have hl_pend : loaded.fmt_ctx.pending = rest := by rw [hl]
  rw [hl_pts]
  by_cases ht : tail = []
  · rw [if_pos ht]
    exact ⟨_, rfl, hl_pkt, hl_pend⟩
  · rw [if_neg ht]
    exact ⟨_, rfl, hl_pkt, hl_pend⟩

/-- C2, at a container with an audio packet and then a video packet that
carries `[1, 2]` and `[3]`: two calls return these two units with the PTS 40 of
the packet, the third reports the end of the stream. -/
theorem getNextNALUnit_framing_round_trip_witness :
    ([[1, 2], [3]] : List QByteArray) ≠ []
    ∧ twoUnitPacket.data = nalFraming [[1, 2], [3]]
    ∧ twoUnitPacket.data.length < 2147483648
    ∧ ∃ s' s'', getNextNALUnits 2
            (openedSession [ReadResult.ok (audioPacket 0), ReadResult.ok twoUnitPacket])
          = some ([([1, 2], some 40), ([3], some 40)], s')
        ∧ getNextNALUnit s' = some { nal := [], pts := none, session := s'' }
        ∧ s''.endOfFile = true ∧ s''.posInFile = -1 :=
  ⟨by decide, rfl, by decide,
   getNextNALUnit_framing_round_trip
     (openedSession [ReadResult.ok (audioPacket 0), ReadResult.ok twoUnitPacket])
     [audioPacket 0] twoUnitPacket [[1, 2], [3]] (by decide) rfl (by decide) rfl (by decide)
     rfl rfl⟩

/-- C3, at `exampleExtradata`: one array of two NAL units, returned as
`[64, 1, 12]` and `[66, 1]`. -/
theorem getParameterSets_well_formed_record_witness :
    getExtradata extradataSession
      = (1 :: List.replicate 21 0) ++ (Fin.ofNat exampleArrays.length
          :: (encodeArrays exampleArrays ++ []))
    ∧ exampleArrays.length ≤ 127
    ∧ getParameterSets extradataSession = some [[64, 1, 12], [66, 1]] :=
  ⟨by decide, by decide,
   getParameterSets_well_formed_record extradataSession (1 :: List.replicate 21 0)
     exampleArrays [] (by decide) rfl rfl (by decide)
     (by
       intro a ha
       simp only [exampleArrays, List.mem_singleton] at ha
       subst ha
       refine ⟨rfl, ?_⟩
       intro n hn
       simp only [List.mem_cons, List.mem_singleton, List.not_mem_nil, or_false] at hn
       rcases hn with rfl | rfl <;> rfl)
     (by decide)⟩

/-- C4, at `scanExample`: two video packets are read before the failing read,
the second one a keyframe with PTS 5, so `nrFrames` is 2 and the index is
`[(1, 5)]`. -/
theorem scanBitstream_result_witness :
    (openedSession scanExample).keyFrameList = []
    ∧ ∃ s', scanBitstream (openedSession scanExample) = some s'
        ∧ s'.nrFrames = 2 ∧ s'.keyFrameList = [⟨1, 5⟩] :=
  ⟨rfl, scanBitstream_result (openedSession scanExample) rfl (by decide)⟩

/-- C5, at a container with an audio packet, a video packet and a failing read:
`goToNextVideoPacket` returns true and holds the video packet, the failing read
still ahead. -/
theorem goToNextVideoPacket_first_video_packet_witness :
    goToNextVideoPacket
        (openedSession [ReadResult.ok (audioPacket 0), ReadResult.ok twoUnitPacket,
          ReadResult.fail 1])
      = (true, { openedSession [ReadResult.fail 1] with pkt := twoUnitPacket }) :=
  (goToNextVideoPacket_first_video_packet
      (openedSession [ReadResult.ok (audioPacket 0), ReadResult.ok twoUnitPacket,
        ReadResult.fail 1])).1
    [audioPacket 0] twoUnitPacket [ReadResult.fail 1] rfl (by decide) rfl

/-- C6 (amended), at an opened session that holds no payload: after the seek in
front of `oneUnitPacket` the next call returns its unit `[9]` with its PTS 80. -/
theorem getNextNALUnit_after_seekToPTS_witness :
    (seekToPTS seekToOneUnitPacket (openedSession []) 0).1 = true
    ∧ (openedSession []).currentPacketData = []
    ∧ oneUnitPacket.data = len_be32 ([9] : QByteArray).length ++ ([9] ++ [])
    ∧ ∃ s', getNextNALUnit (seekToPTS seekToOneUnitPacket (openedSession []) 0).2
          = some { nal := [9], pts := some 80, session := s' }
        ∧ s'.pkt = oneUnitPacket ∧ s'.fmt_ctx.pending = [] :=
  ⟨rfl, rfl, rfl,
   (getNextNALUnit_after_seekToPTS seekToOneUnitPacket (openedSession []) 0 [] oneUnitPacket []
      [9] [] rfl rfl rfl (by decide) rfl rfl (by decide)).2.2⟩

/-- C11. On a session with an empty keyframe list, and a container that gives
fewer than 2^31 packets of the selected video stream before its first failing
read (`nrFrames` is an `int`), `scanBitstream` comes to an end with a seek index
that is strictly ascending by frame number and whose frame numbers are all
non-negative and smaller than the final `nrFrames`. -/
theorem scanBitstream_index_ascending (self : fileSourceFFmpegFile)
    (h : self.keyFrameList = [])
    (hcount : (videoPacketsRead self.video_stream.index self.fmt_ctx.pending).length
      < 2147483648) :
    ∃ s', scanBitstream self = some s'
      ∧ s'.keyFrameList.Pairwise (fun a b => a.frame < b.frame)
      ∧ ∀ e ∈ s'.keyFrameList, 0 ≤ e.frame ∧ e.frame < s'.nrFrames := by
  obtain ⟨s', h1, h2, h3, _⟩ := scanBitstreamLoop_spec (self.fmt_ctx.pending.length + 1)
    { self with nrFrames := 0 } 0 (Nat.lt_succ_self _) rfl
    (by simp only [Nat.zero_add]; exact hcount)
  simp only [h, List.nil_append] at h3
  refine ⟨s', h1, ?_, ?_⟩
  · rw [h3]
    exact keyFrameEntriesFrom_ascending _ 0
  · intro e he
    rw [h3] at he
    have := keyFrameEntriesFrom_bounds _ 0 e he
    rw [h2]
    exact ⟨by simpa using this.1, this.2⟩

/-- C11, at a container with the video packets 0 (keyframe), 1 and 2
(keyframe): the index is `[(0, 0), (2, 20)]` and `nrFrames` is 3. -/
theorem scanBitstream_index_ascending_witness :
    (openedSession [ReadResult.ok (videoPacket 0 true []), ReadResult.ok (videoPacket 10 false []),
        ReadResult.ok (videoPacket 20 true [])]).keyFrameList = []
    ∧ ∃ s', scanBitstream (openedSession [ReadResult.ok (videoPacket 0 true []),
          ReadResult.ok (videoPacket 10 false []), ReadResult.ok (videoPacket 20 true [])])
        = some s'
      ∧ s'.keyFrameList.Pairwise (fun a b => a.frame < b.frame)
      ∧ ∀ e ∈ s'.keyFrameList, 0 ≤ e.frame ∧ e.frame < s'.nrFrames :=
  ⟨rfl, scanBitstream_index_ascending (openedSession [ReadResult.ok (videoPacket 0 true []),
      ReadResult.ok (videoPacket 10 false []), ReadResult.ok (videoPacket 20 true [])]) rfl
      (by decide)⟩

/-- C13 (what the claim says fails). On an opened session with duration
`INT64_MIN` and the time base -1/1, `timeBase.num` is not 0 and `getMaxPTS`
does not return a value: the division `INT64_MIN / -1` overflows. -/
theorem getMaxPTS_division_overflow :
    getMaxPTS { isFileOpened := true, duration := INT64_MIN, timeBase := { num := -1, den := 1 } }
      = Int64Result.divisionOverflow := by
  decide

/-- C13 (amended). `getMaxPTS` returns -1 when no file is opened; on an opened
session with `timeBase.num ≠ 0`, other than with the product `duration *
timeBase.den` (as an `int64_t`) at `INT64_MIN` and `timeBase.num = -1`, it
returns `((duration * timeBase.den) / timeBase.num) / 1000`, evaluated left to
right in `int64_t` with truncating division, and this is the exact value of
that expression whenever the product fits 64 bits; a division by zero is
reached exactly when the session is opened and `timeBase.num` is 0, and the
overflowing division exactly when it is opened, the product is `INT64_MIN` and
`timeBase.num` is -1. -/
theorem getMaxPTS_value (self : fileSourceFFmpegFile) :
    (self.isFileOpened = false → getMaxPTS self = Int64Result.value (-1))
    ∧ (self.isFileOpened = true → self.timeBase.num ≠ 0 →
        ¬ (toInt64 (self.duration * self.timeBase.den) = INT64_MIN ∧ self.timeBase.num = -1) →
        getMaxPTS self = Int64Result.value (Int.tdiv
          (Int.tdiv (toInt64 (self.duration * self.timeBase.den)) self.timeBase.num) 1000))
    ∧ (self.isFileOpened = true → self.timeBase.num ≠ 0 →
        fitsInt64 (self.duration * self.timeBase.den) →
        ¬ (self.duration * self.timeBase.den = INT64_MIN ∧ self.timeBase.num = -1) →
        getMaxPTS self = Int64Result.value
          (Int.tdiv (Int.tdiv (self.duration * self.timeBase.den) self.timeBase.num) 1000))
    ∧ (getMaxPTS self = Int64Result.divisionByZero ↔
        self.isFileOpened = true ∧ self.timeBase.num = 0)
    ∧ (getMaxPTS self = Int64Result.divisionOverflow ↔
        self.isFileOpened = true
        ∧ toInt64 (self.duration * self.timeBase.den) = INT64_MIN ∧ self.timeBase.num = -1) := by
  have hwrap : fitsInt64 (toInt64 (self.duration * self.timeBase.den)) := by
    unfold fitsInt64 toInt64
    omega
  have hval : self.isFileOpened = true → self.timeBase.num ≠ 0 →
      ¬ (toInt64 (self.duration * self.timeBase.den) = INT64_MIN ∧ self.timeBase.num = -1) →
      getMaxPTS self = Int64Result.value (Int.tdiv
        (Int.tdiv (toInt64 (self.duration * self.timeBase.den)) self.timeBase.num) 1000) := by
    intro ho hn hcorner
    have h1 := tdiv_fitsInt64 _ self.timeBase.num hwrap hcorner
    have h2 := tdiv_fitsInt64 _ 1000 h1 (by omega)
    unfold getMaxPTS
    simp only [ho, hn, Bool.not_true, if_false, Bool.false_eq_true, hcorner]
    rw [toInt64_of_fits _ h1, toInt64_of_fits _ h2]
  refine ⟨?_, hval, ?_, ?_, ?_⟩
  · intro ho
    simp [getMaxPTS, ho]
  · intro ho hn hfit hcorner
    have hx := toInt64_of_fits _ hfit
    have := hval ho hn (by rw [hx]; exact hcorner)
    rw [hx] at this
    exact this
  · constructor
    · intro h
      by_cases ho : self.isFileOpened = true
      · by_cases hn : self.timeBase.num = 0
        · exact ⟨ho, hn⟩
        · by_cases hcorner : toInt64 (self.duration * self.timeBase.den) = INT64_MIN
              ∧ self.timeBase.num = -1
          · simp [getMaxPTS, ho, hn, hcorner] at h
          · rw [hval ho hn hcorner] at h
            exact absurd h (by simp)
      · simp [getMaxPTS, ho] at h
    · rintro ⟨ho, hn⟩
      simp [getMaxPTS, ho, hn]
  · constructor
    · intro h
      by_cases ho : self.isFileOpened = true
      · by_cases hn : self.timeBase.num = 0
        · simp [getMaxPTS, ho, hn] at h
        · by_cases hcorner : toInt64 (self.duration * self.timeBase.den) = INT64_MIN
              ∧ self.timeBase.num = -1
          · exact ⟨ho, hcorner⟩
          · rw [hval ho hn hcorner] at h
            exact absurd h (by simp)
      · simp [getMaxPTS, ho] at h
    · rintro ⟨ho, hx, hn⟩
      have hn0 : self.timeBase.num ≠ 0 := by omega
      simp [getMaxPTS, ho, hn0, hx, hn]

/-- C13 (amended), at an opened session with duration 90000000 and time base
1/90000 the result is 90000000 * 90000 / 1 / 1000 = 8100000000; with time base
0/1 the division by zero is reached; a session that is not opened gives -1. -/
theorem getMaxPTS_value_witness :
    getMaxPTS { isFileOpened := true, duration := 90000000, timeBase := { num := 1, den := 90000 } }
      = Int64Result.value 8100000000
    ∧ getMaxPTS { isFileOpened := true, duration := 90000000, timeBase := { num := 0, den := 1 } }
      = Int64Result.divisionByZero
    ∧ getMaxPTS {} = Int64Result.value (-1) :=
  ⟨(getMaxPTS_value
      { isFileOpened := true, duration := 90000000, timeBase := { num := 1, den := 90000 } }).2.2.1
      rfl (by decide) (by decide) (by decide),
   (getMaxPTS_value
      { isFileOpened := true, duration := 90000000,
        timeBase := { num := 0, den := 1 } }).2.2.2.1.2
      ⟨rfl, rfl⟩,
   (getMaxPTS_value {}).1 rfl⟩

/-- C20 (what the claim says fails). The two-byte decoding of `getParameterSets`
reaches 32895 at the bytes (255, 255), above the 32640 of the claim. -/
theorem shift7_exceeds_32640 :
    shift7 255 255 = 32895 ∧ ¬ (∀ b0 b1 : Byte, shift7 b0 b1 ≤ 32640) := by
  refine ⟨by decide, fun h => ?_⟩
  have := h 255 255
  revert this
  decide

/-- C20 (amended). The two-byte decoding `(b0 << 7) + b1` of `getParameterSets`
equals the big-endian 16-bit value `256 * b0 + b1` if and only if `b0 = 0`; it
is not injective ((1, 0) and (0, 128) both decode to 128); and its largest
value is 32895, taken at (255, 255). -/
theorem shift7_not_big_endian :
    (∀ b0 b1 : Byte, shift7 b0 b1 = 256 * (b0.val : Int) + (b1.val : Int) ↔ b0 = 0)
    ∧ shift7 1 0 = 128 ∧ shift7 0 128 = 128
    ∧ (∀ b0 b1 : Byte, shift7 b0 b1 ≤ 32895)
    ∧ shift7 255 255 = 32895 := by
  refine ⟨?_, by decide, by decide, ?_, by decide⟩
  · intro b0 b1
    unfold shift7 ucharVal
    constructor
    · intro h
      apply Fin.ext
      have : (b0.val : Int) = 0 := by omega
      simpa using this
    · intro h
      subst h
      simp
  · intro b0 b1
    unfold shift7 ucharVal
    have h0 := b0.isLt
    have h1 := b1.isLt
    omega

/-- C15. Stream selection on a session that has no stream selected and is not
opened (as a freshly constructed one): `openFileAndFindVideoStream` leaves the
session opened if and only if the libraries load, the input opens and the
stream table has a video stream; it then selects the first video stream of the
table; and when the table has no video stream the session stays not opened and
`openFile` returns false. -/
theorem openFileAndFindVideoStream_selects_first_video (librariesLoad : Bool)
    (open_input : Option AVFormatContextWrapper) (self : fileSourceFFmpegFile)
    (hfresh : self.video_stream.valid = false) (hclosed : self.isFileOpened = false) :
    ((openFileAndFindVideoStream librariesLoad open_input self).isFileOpened = true ↔
      librariesLoad = true ∧ ∃ ctx, open_input = some ctx
        ∧ ∃ st ∈ ctx.streams, st.codecType = AVMediaType.video)
    ∧ (∀ (ctx : AVFormatContextWrapper) (pre post : List AVStreamWrapper) (st : AVStreamWrapper),
        librariesLoad = true → open_input = some ctx → ctx.streams = pre ++ st :: post →
        (∀ q ∈ pre, q.codecType ≠ AVMediaType.video) → st.codecType = AVMediaType.video →
        (openFileAndFindVideoStream librariesLoad open_input self).video_stream
          = { st with valid := true })
    ∧ (∀ ctx, open_input = some ctx → (∀ st ∈ ctx.streams, st.codecType ≠ AVMediaType.video) →
        ∀ (fileExists : Bool)
          (seek_frame : AVFormatContextWrapper → Int → Int → Int × AVFormatContextWrapper)
          (other : Option fileSourceFFmpegFile),
        ∃ s', openFile fileExists librariesLoad open_input seek_frame other self = some (false, s')
          ∧ s'.isFileOpened = false) := by
  refine ⟨⟨?_, ?_⟩, ?_, ?_⟩
  · intro hopen
    by_contra hcon
    have hnot : librariesLoad = false ∨ open_input = none
        ∨ ∃ ctx, open_input = some ctx ∧ ∀ st ∈ ctx.streams, st.codecType ≠ AVMediaType.video := by
      by_cases hl : librariesLoad = true
      · right
        cases hoi : open_input with
        | none => exact Or.inl rfl
        | some ctx =>
          right
          refine ⟨ctx, rfl, fun st hst hv => hcon ⟨hl, ctx, hoi, st, hst, hv⟩⟩
      · left
        simpa using hl
    rw [openFileAndFindVideoStream_not_opened librariesLoad open_input self hfresh hnot] at hopen
    exact absurd hopen (by simp)
  · rintro ⟨hl, ctx, hoi, hex⟩
    obtain ⟨pre, st, post, hdec, hpre, hst⟩ := exists_first_video ctx.streams hex
    rw [hl, hoi]
    exact (openFileAndFindVideoStream_found self ctx pre post st hdec hpre hst).1
  · intro ctx pre post st hl hoi hdec hpre hst
    rw [hl, hoi]
    exact (openFileAndFindVideoStream_found self ctx pre post st hdec hpre hst).2.1
  · intro ctx hoi hno fileExists seek_frame other
    have hnot := openFileAndFindVideoStream_not_opened librariesLoad open_input self hfresh
      (Or.inr (Or.inr ⟨ctx, hoi, hno⟩))
    cases fileExists with
    | false => exact ⟨self, by simp [openFile], hclosed⟩
    | true => exact ⟨_, by simp [openFile, hnot], hnot⟩

/-- C15, at a freshly constructed session and `exampleContainer`: the session
is opened on stream 1, the first video stream of the table. -/
theorem openFileAndFindVideoStream_selects_first_video_witness :
    (openFileAndFindVideoStream true (some exampleContainer) {}).video_stream.index = 1
    ∧ (openFileAndFindVideoStream true (some exampleContainer) {}).isFileOpened = true :=
  ⟨congrArg AVStreamWrapper.index
      ((openFileAndFindVideoStream_selects_first_video true (some exampleContainer) {} rfl rfl).2.1
        exampleContainer [{ valid := true, index := 0, codecType := AVMediaType.audio }]
        [{ valid := true, index := 2, codecType := AVMediaType.video,
           avg_frame_rate := { num := 25, den := 1 }, time_base := { num := 1, den := 25 } }]
        { valid := true, index := 1, codecType := AVMediaType.video,
          avg_frame_rate := { num := 0, den := 0 }, time_base := { num := 1, den := 90000 } }
        rfl rfl rfl (by decide) rfl),
   (openFileAndFindVideoStream_selects_first_video true (some exampleContainer) {} rfl rfl).1.mpr
      ⟨rfl, exampleContainer, rfl,
        { valid := true, index := 1, codecType := AVMediaType.video,
          avg_frame_rate := { num := 0, den := 0 }, time_base := { num := 1, den := 90000 } },
        by decide, rfl⟩⟩

/-- C17. Frame-rate sentinel: when opening selects a video stream, a stream
whose average frame rate has the denominator 0 gives the frame rate -1, with no
division evaluated; a division `num / double(den)` is evaluated only when the
denominator is not 0. -/
theorem openFileAndFindVideoStream_frameRate (librariesLoad : Bool)
    (open_input : Option AVFormatContextWrapper) (self : fileSourceFFmpegFile)
    (hopened : (openFileAndFindVideoStream librariesLoad open_input self).isFileOpened = true) :
    ((openFileAndFindVideoStream librariesLoad open_input self).video_stream.avg_frame_rate.den = 0 →
      (openFileAndFindVideoStream librariesLoad open_input self).frameRate = FrameRate.value (-1))
    ∧ ((openFileAndFindVideoStream librariesLoad open_input self).video_stream.avg_frame_rate.den ≠ 0 →
      (openFileAndFindVideoStream librariesLoad open_input self).frameRate =
        FrameRate.quotient
          (openFileAndFindVideoStream librariesLoad open_input self).video_stream.avg_frame_rate.num
          (openFileAndFindVideoStream librariesLoad open_input self).video_stream.avg_frame_rate.den)
    ∧ (∀ n d, (openFileAndFindVideoStream librariesLoad open_input self).frameRate
        = FrameRate.quotient n d → d ≠ 0) := by
  unfold openFileAndFindVideoStream at hopened ⊢
  cases librariesLoad with
  | false => simp at hopened
  | true =>
    cases open_input with
    | none => simp at hopened
    | some ctx =>
      by_cases hv : (findVideoStream ctx.streams self.video_stream).valid = true
      · by_cases hd : (findVideoStream ctx.streams self.video_stream).avg_frame_rate.den = 0
        · simp [hv, hd]
        · simp only [Bool.not_true, Bool.false_eq_true, if_false, hv, hd, ne_eq,
            not_false_eq_true, forall_true_left, true_and, IsEmpty.forall_iff]
          intro n d h
          injection h with h1 h2
          rw [← h2]
          exact hd
      · simp [hv] at hopened

/-- C17, at `exampleContainer`, whose first video stream has the average frame
rate 0/0: the frame rate is -1; at `frameRateContainer` (25/1) it is the
quotient 25 / 1. -/
theorem openFileAndFindVideoStream_frameRate_witness :
    (openFileAndFindVideoStream true (some exampleContainer) {}).isFileOpened = true
    ∧ (openFileAndFindVideoStream true (some exampleContainer) {}).frameRate = FrameRate.value (-1)
    ∧ (openFileAndFindVideoStream true (some frameRateContainer) {}).frameRate
        = FrameRate.quotient 25 1 :=
  ⟨rfl,
   (openFileAndFindVideoStream_frameRate true (some exampleContainer) {} rfl).1 rfl,
   (openFileAndFindVideoStream_frameRate true (some frameRateContainer) {} rfl).2.1 (by decide)⟩

/-- C16. Scan idempotence: on a container with a video stream that gives fewer
than 2^31 packets of that stream before its first failing read (`nrFrames` is an
`int`), a session with an empty keyframe list opened with a full scan
(`openFile` without a sibling)
and any session opened with that first session as its sibling end with the same
`nrFrames` and the same `keyFrameList`; both are the frame count and the
keyframe list of the packets of the first video stream, whatever the seeks do
and whatever else the sessions held before. -/
theorem openFile_scan_idempotent (ctx : AVFormatContextWrapper)
    (seek1 seek2 : AVFormatContextWrapper → Int → Int → Int × AVFormatContextWrapper)
    (self1 self2 : fileSourceFFmpegFile) (pre post : List AVStreamWrapper) (st : AVStreamWrapper)
    (hfresh : self1.keyFrameList = [])
    (hdec : ctx.streams = pre ++ st :: post)
    (hpre : ∀ q ∈ pre, q.codecType ≠ AVMediaType.video)
    (hst : st.codecType = AVMediaType.video)
    (hcount : (videoPacketsRead st.index ctx.pending).length < 2147483648) :
    ∃ a b, openFile true true (some ctx) seek1 none self1 = some (true, a)
      ∧ openFile true true (some ctx) seek2 (some a) self2 = some (true, b)
      ∧ b.nrFrames = a.nrFrames ∧ b.keyFrameList = a.keyFrameList
      ∧ a.nrFrames = ((videoPacketsRead st.index ctx.pending).length : Int)
      ∧ a.keyFrameList = keyFrameEntries (videoPacketsRead st.index ctx.pending) := by
  obtain ⟨a, ha, hopen, hn, hk⟩ :=
    openFile_scan ctx seek1 self1 pre post st hfresh hdec hpre hst hcount
  obtain ⟨b, hb, hbn, hbk⟩ := openFile_sibling ctx seek2 self2 a hopen
    ⟨st, by rw [hdec]; simp, hst⟩
  exact ⟨a, b, ha, hb, hbn, hbk, hn, hk⟩

/-- C16, at `exampleContainer`: the scanning session and the session opened with
it as sibling both end with 2 frames and the index `[(0, 0)]`. -/
theorem openFile_scan_idempotent_witness :
    ∃ a b, openFile true true (some exampleContainer) seekFails none {} = some (true, a)
      ∧ openFile true true (some exampleContainer) seekToOneUnitPacket (some a) {}
          = some (true, b)
      ∧ b.nrFrames = a.nrFrames ∧ b.keyFrameList = a.keyFrameList
      ∧ a.nrFrames = 2 ∧ a.keyFrameList = [⟨0, 0⟩] :=
  openFile_scan_idempotent exampleContainer seekFails seekToOneUnitPacket {} {}
    [{ valid := true, index := 0, codecType := AVMediaType.audio }]
    [{ valid := true, index := 2, codecType := AVMediaType.video,
       avg_frame_rate := { num := 25, den := 1 }, time_base := { num := 1, den := 25 } }]
    { valid := true, index := 1, codecType := AVMediaType.video,
      avg_frame_rate := { num := 0, den := 0 }, time_base := { num := 1, den := 90000 } }
    rfl rfl (by decide) rfl (by decide)

/-- C19. Truncated NAL unit: on a held payload with at least 4 bytes at the
cursor, when the declared length exceeds the number of bytes that follow the
4-byte prefix and cursor + 4 + length does not overflow an `int`,
`getNextNALUnit` makes no out-of-range access, returns exactly the bytes that
follow the prefix, and marks the payload consumed. -/
theorem getNextNALUnit_truncated (self : fileSourceFFmpegFile) (pre rest : QByteArray)
    (b0 b1 b2 b3 : Byte)
    (hdata : self.currentPacketData = pre ++ ([b0, b1, b2, b3] ++ rest))
    (hpos : self.posInData = (pre.length : Int))
    (hlong : (rest.length : Int) < declaredLength b0 b1 b2 b3)
    (hfit : (pre.length : Int) + 4 + declaredLength b0 b1 b2 b3 < 2147483648) :
    getNextNALUnit self =
      some { nal := rest, pts := some (toUInt64 self.pkt.pts),
             session := { self with
               posInData := (pre.length : Int) + 4 + declaredLength b0 b1 b2 b3,
               currentPacketData := [] } } := by
  have hne : self.currentPacketData ≠ [] := by rw [hdata]; simp
  have hd0 : 0 ≤ declaredLength b0 b1 b2 b3 := by unfold declaredLength; omega
  have hsizePart : QByteArray.mid self.currentPacketData self.posInData 4 = [b0, b1, b2, b3] := by
    rw [hdata]
    exact mid_append pre [b0, b1, b2, b3] rest _ _ hpos rfl
  have hfour := byteAt_four b0 b1 b2 b3
  have hdec := decode_declaredLength b0 b1 b2 b3
  have hp4 : toInt32 (self.posInData + 4) = ((pre ++ [b0, b1, b2, b3]).length : Int) := by
    rw [hpos, toInt32_of_fits _ (by unfold fitsInt32; omega)]
    simp only [List.length_append, List.length_cons, List.length_nil]
    push_cast
    ring
  have hsz : toInt32 (declaredLength b0 b1 b2 b3) = declaredLength b0 b1 b2 b3 :=
    toInt32_of_fits _ (by unfold fitsInt32; omega)
  have hret : QByteArray.mid self.currentPacketData (toInt32 (self.posInData + 4))
      (toInt32 (declaredLength b0 b1 b2 b3)) = rest := by
    rw [hdata, hsz]
    have := mid_to_end (pre ++ [b0, b1, b2, b3]) rest _ _ hp4 hlong
    simpa only [List.append_assoc] using this
  have hnew : toInt32 (toUInt32 (toUInt32 self.posInData
        + toUInt32 (4 + declaredLength b0 b1 b2 b3)))
      = (pre.length : Int) + 4 + declaredLength b0 b1 b2 b3 := by
    rw [hpos]
    unfold toInt32 toUInt32
    omega
  have hcmp : (pre.length : Int) + 4 + declaredLength b0 b1 b2 b3
      ≥ QByteArray.size self.currentPacketData := by
    rw [hdata]
    unfold QByteArray.size
    simp only [List.length_append, List.length_cons, List.length_nil]
    push_cast
    omega
  rw [getNextNALUnit_loaded self hne]
  unfold getNextNALUnit_slice
  simp only [hsizePart, hfour.1, hfour.2.1, hfour.2.2.1, hfour.2.2.2, hdec, hret, hnew]
  rw [if_pos hcmp]

/-- C19, at the payload `0 0 0 9 5 6` (nine bytes declared, two present) with
the cursor at 0: the call returns `[5, 6]` and drops the payload. -/
theorem getNextNALUnit_truncated_witness :
    getNextNALUnit { openedSession [] with currentPacketData := [0, 0, 0, 9, 5, 6] }
      = some { nal := [5, 6], pts := some (toUInt64 AV_NOPTS_VALUE),
               session := { openedSession [] with posInData := 13 } } :=
  getNextNALUnit_truncated { openedSession [] with currentPacketData := [0, 0, 0, 9, 5, 6] }
    [] [5, 6] 0 0 0 9 rfl rfl (by decide) (by decide)

/-- C18 (overflow of the cursor). With the declared length `0xFFFFFFFC` at
cursor 0 of the payload `FF FF FF FC 01 02 03 04`, `4 + size` wraps to 0:
`getNextNALUnit` returns `[1, 2, 3, 4]`, leaves the cursor at 0 and keeps the
payload, so the next call does the same again. With the declared length
`0x80000000` the cursor becomes `-2147483644` and the payload is kept as
well. -/
theorem getNextNALUnit_cursor_overflow :
    (getNextNALUnit
        { openedSession [] with currentPacketData := [255, 255, 255, 252, 1, 2, 3, 4] }).map
      (fun r => (r.nal, r.session.posInData, r.session.currentPacketData))
      = some ([1, 2, 3, 4], 0, [255, 255, 255, 252, 1, 2, 3, 4])
    ∧ declaredLength 255 255 255 252 = 4294967292
    ∧ (getNextNALUnit
        { openedSession [] with currentPacketData := [128, 0, 0, 0, 1, 2, 3, 4] }).map
      (fun r => (r.nal, r.session.posInData, r.session.currentPacketData))
      = some ([1, 2, 3, 4], -2147483644, [128, 0, 0, 0, 1, 2, 3, 4])
    ∧ declaredLength 128 0 0 0 = 2147483648 := by
  decide

/-- C14 (array counts from 128 on). `int numOfArrays = extradata.at(22)` reads
the byte as a signed `char`: on a record that declares 128 arrays of one NAL
unit each, `numOfArrays` is -128, no array is processed and the empty list is
returned, where the record holds 128 parameter sets. -/
theorem getParameterSets_array_count_signed :
    charVal 128 = -128
    ∧ getParameterSets manyArraysSession = some []
    ∧ (parameterSetPayloads (List.replicate 128
        { arrayType := 32, count0 := 0, count1 := 1,
          nals := [{ len0 := 0, len1 := 1, payload := [66] }] })).length = 128 := by
  have h0 : QByteArray.byteAt manyArraysExtradata 0 = some 1 :=
    byteAt_append [] _ 1 0 rfl
  have h22 : QByteArray.byteAt manyArraysExtradata 22 = some 128 :=
    byteAt_append (1 :: List.replicate 21 0) _ 128 22 rfl
  have hc1 : charVal 1 = 1 := by decide
  have hc128 : charVal 128 = -128 := by decide
  refine ⟨hc128, ?_, rfl⟩
  have hx : getExtradata manyArraysSession = manyArraysExtradata := rfl
  unfold getParameterSets
  simp only [hx, h0, h22, hc1, hc128]
  rfl

/-- C8 (what the claim says fails). After a failed read the next call need not
report the end of the stream: on a container whose read fails once and then
gives a video packet, the first `goToNextVideoPacket` returns false (it has set
`endOfFile`), the second returns true, and only the `getNextPacket(false)` after
it reports the end again. -/
theorem endOfStream_not_sticky :
    (TrackedSession.goToNextVideoPacket
        { session := openedSession [ReadResult.fail 10, ReadResult.ok twoUnitPacket] }).1 = false
    ∧ (TrackedSession.goToNextVideoPacket
        { session := openedSession [ReadResult.fail 10, ReadResult.ok twoUnitPacket] }).2.session.endOfFile
        = true
    ∧ (runCalls [IteratorCall.goToNextVideoPacket, IteratorCall.goToNextVideoPacket,
        IteratorCall.getNextPacket]
        { session := openedSession [ReadResult.fail 10, ReadResult.ok twoUnitPacket] }).map
      (fun r => (r.1, r.2.session.endOfFile)) = some ([true, false, true], true) := by
  decide

/-- C8 (amended). Once every further read of the container fails and no payload
is held, every `goToNextVideoPacket`, `getNextPacket(false)` and
`getNextNALUnit` call of every sequence of such calls reports the end of the
stream, and `endOfFile` is set after the first of them. The flag itself is
sticky on every container: once set, no sequence of these calls clears it. -/
theorem endOfStream_sticky_when_exhausted (t : TrackedSession) (calls : List IteratorCall) :
    (everyReadFails t.session.fmt_ctx.pending → t.session.currentPacketData = [] →
      ∃ t', runCalls calls t = some (List.replicate calls.length true, t')
        ∧ everyReadFails t'.session.fmt_ctx.pending ∧ t'.session.currentPacketData = []
        ∧ (calls ≠ [] → t'.session.endOfFile = true))
    ∧ (t.session.endOfFile = true →
      ∀ rs, runCalls calls t = some rs → rs.2.session.endOfFile = true) := by
  refine ⟨?_, fun hflag rs h => runCalls_endOfFile calls t rs hflag h⟩
  induction calls generalizing t with
  | nil =>
    intro hpend hdata
    exact ⟨t, rfl, hpend, hdata, fun h => absurd rfl h⟩
  | cons c rest ih =>
    intro hpend hdata
    obtain ⟨t1, h1, hp1, hd1, he1⟩ := IteratorCall_run_everyReadFails c t hpend hdata
    obtain ⟨t2, h2, hp2, hd2, _⟩ := ih t1 hp1 hd1
    refine ⟨t2, ?_, hp2, hd2, fun _ => ?_⟩
    · simp only [runCalls, h1, h2, List.length_cons, List.replicate_succ]
    · exact runCalls_endOfFile rest t1 (List.replicate rest.length true, t2) he1 h2

/-- C8 (amended), at an opened session whose container has two failing reads
left: a `getNextNALUnit`, a `goToNextVideoPacket` and a `getNextPacket(false)`
call all report the end of the stream. -/
theorem endOfStream_sticky_when_exhausted_witness :
    everyReadFails (openedSession [ReadResult.fail 1, ReadResult.fail 7]).fmt_ctx.pending
    ∧ (openedSession [ReadResult.fail 1, ReadResult.fail 7]).currentPacketData = []
    ∧ ∃ t', runCalls [IteratorCall.getNextNALUnit, IteratorCall.goToNextVideoPacket,
          IteratorCall.getNextPacket]
          { session := openedSession [ReadResult.fail 1, ReadResult.fail 7] }
        = some (List.replicate 3 true, t')
        ∧ everyReadFails t'.session.fmt_ctx.pending ∧ t'.session.currentPacketData = []
        ∧ ([IteratorCall.getNextNALUnit, IteratorCall.goToNextVideoPacket,
          IteratorCall.getNextPacket] ≠ [] → t'.session.endOfFile = true) :=
  ⟨by
     intro r hr
     simp only [openedSession, List.mem_cons, List.mem_singleton, List.not_mem_nil,
       or_false] at hr
     rcases hr with rfl | rfl
     · exact ⟨1, rfl⟩
     · exact ⟨7, rfl⟩,
   rfl,
   (endOfStream_sticky_when_exhausted
      { session := openedSession [ReadResult.fail 1, ReadResult.fail 7] }
      [IteratorCall.getNextNALUnit, IteratorCall.goToNextVideoPacket,
        IteratorCall.getNextPacket]).1
     (by
       intro r hr
       simp only [openedSession, List.mem_cons, List.mem_singleton, List.not_mem_nil,
         or_false] at hr
       rcases hr with rfl | rfl
       · exact ⟨1, rfl⟩
       · exact ⟨7, rfl⟩)
     rfl⟩

/-- C12 (PTS of a released payload). A session returns the first NAL unit
`[1, 2]` of a packet with PTS 40 and keeps the rest of its payload;
`getNextPacket(false)` then releases that packet and holds the next one, with
PTS 80. The next `getNextNALUnit` call pulls no packet: it reads the payload it
still refers to, whose buffer is released, and the PTS it has to report is that
of the held packet, 80, not the 40 of the packet the payload came from. -/
theorem getNextNALUnit_reads_released_payload :
    (TrackedSession.getNextNALUnit
        { session := openedSession [ReadResult.ok twoUnitPacket, ReadResult.ok oneUnitPacket] }).map
      (fun r1 => (r1.1, r1.2.1, r1.2.2.payloadReleased)) = some ([1, 2], some 40, false)
    ∧ (TrackedSession.getNextNALUnit
        { session := openedSession [ReadResult.ok twoUnitPacket, ReadResult.ok oneUnitPacket] }).map
      (fun r1 =>
        ((TrackedSession.getNextPacket r1.2.2 false).1.pts,
         (TrackedSession.getNextPacket r1.2.2 false).2.session.pkt.pts,
         (TrackedSession.getNextPacket r1.2.2 false).2.session.currentPacketData.isEmpty,
         (TrackedSession.getNextPacket r1.2.2 false).2.session.fmt_ctx.pending,
         (TrackedSession.getNextPacket r1.2.2 false).2.payloadReleased))
      = some (80, 80, false, [], true)
    ∧ (TrackedSession.getNextNALUnit
        { session := openedSession [ReadResult.ok twoUnitPacket, ReadResult.ok oneUnitPacket] }).bind
      (fun r1 => TrackedSession.getNextNALUnit (TrackedSession.getNextPacket r1.2.2 false).2)
      = none := by
  decide

end YUView
